import Mathlib

/-!
# multifinder.c : a quad witch hut finder

A shallow embedding of `multifinder.c`.  The generator and structure
placement library (`finders.h`, `generator.h`, `layers.h`) is not part of the
translated file; its functions are the fields of `Engine`.

Conventions.
* C `int` and `long` values are `Int`.  The only place where the program
  relies on wrap-around is `seed = base + (j << 48)`, modelled by `wrapLong`.
* Array indices and loop counters that only count upwards from `0` are `Nat`.
* C `float` and `double` are IEEE 754 binary32 and binary64 with round to nearest,
  ties to even, each operation rounded to its own type; the values are `Dyadic`
  numbers computed in exact integer arithmetic.  The exponent range is not
  modelled: every value that occurs in hasSpawnBiome is 0 or lies between
  `2^-9` and `2^3`.
* A generator (`LayerStack`) is identified with the world seed that was last
  applied to it, since every library call on it is made right after seeding.
* Everything the worker does to its collaborators is recorded as a list of
  `Event`s in program order; the seeds written with `fprintf(fh, ...)` are the
  `Event.print` entries of that list.
-/

namespace Multifinder

/-! ## Data -/

/-- Pos of finders.h: a pair of int coordinates. -/
structure Pos where
  x : Int
  z : Int
deriving DecidableEq, Repr

/-- The struct Monuments: `monuments` holds the occupied slots
`monuments[0 .. numMonuments-1]` of the four-slot array. -/
structure Monuments where
  numMonuments : Nat
  monuments : List Pos
deriving DecidableEq, Repr

/-- The struct BiomeSearchConfig.  `fraction` is the value of the C float.
`lookup` is addressed by the raw int index used in `config->lookup[idx]`;
the array proper is the indices `0 .. 255`. -/
structure BiomeSearchConfig where
  name : String
  fraction : Rat
  lookup : Int → Int

/-- The fields of struct SearchOptions that the search reads. -/
structure SearchOptions where
  radius : Int
  hutRadius : Int
  mansionRadius : Int
  startSeed : Int
  endSeed : Int
  threads : Int
  spawnBiomes : Option BiomeSearchConfig
  monumentDistance : Int
  woodlandMansions : Int

/-- A generator is represented by the world seed last applied to it. -/
abbrev LayerStack := Int

/-- The library functions called by multifinder.c, taken as parameters.

* `mcNextInt seed x z m`: the value of `mcNextInt(&layerBiomeDummy, m)` right
  after `setChunkSeed(&layerBiomeDummy, x, z)`, the dummy layer having been
  seeded with `setWorldSeed(&layerBiomeDummy, seed)`.
* `genAreaFilter seed x z`: `biomeCache[0]` after
  `setWorldSeed(lFilterBiome, seed); genArea(lFilterBiome, biomeCache, x, z, 1, 1)`.
* `genAreaLast g x z`: `buf[0]` after `genArea(&g.layers[g.layerNum-1], buf, x, z, 1, 1)`.
* `genAreaShore g x z i`: `spawnCache[i]` after
  `genArea(lShoreBiome, spawnCache, x, z, 18, 18)`.
* `swampland`: the biome id constant of that name. -/
structure Engine where
  swampland : Int
  moveTemple : Int → Int → Int → Int
  mcNextInt : Int → Int → Int → Int → Int
  genAreaFilter : Int → Int → Int → Int
  getWitchHutPos : Int → Int → Int → Pos
  genAreaLast : LayerStack → Int → Int → Int
  getOceanMonumentChunk : Int → Int → Int → Pos
  isViableOceanMonumentPos : LayerStack → Int → Int → Int
  getMansionPos : Int → Int → Int → Pos
  isViableMansionPos : LayerStack → Int → Int → Int
  getSpawn : LayerStack → Int → Pos
  genAreaShore : LayerStack → Int → Int → Nat → Int

/-- What the worker does to the outside, in program order. -/
inductive Event where
  | potentialMonuments (baseSeed distance : Int)
  | moveTemple (baseSeed rX rZ : Int)
  | setWorldSeed (seed : Int)
  | mcNextInt (seed x z : Int)
  | getWitchHutPos (base rX rZ : Int)
  | genAreaFilter (seed x z : Int)
  | applySeed (seed : Int)
  | getBiomeAt (seed : Int) (pos : Pos)
  | verifyMonuments (seed rX rZ : Int)
  | hasMansions (seed : Int)
  | hasSpawnBiome (seed : Int)
  | print (seed : Int)
  | flush
  | log (baseSeed : Int) (basehits : Nat)
deriving DecidableEq, Repr

/-- How one pass through the body of the salt loop ends: `continue` (or
falling off the end of the body) or `break`. -/
inductive Flow where
  | next
  | stop
deriving DecidableEq, Repr

/-! ## Integer helpers -/

/-- Two's complement wrap to the range of a 64-bit long. -/
def wrapLong (v : Int) : Int := (v + 2 ^ 63) % 2 ^ 64 - 2 ^ 63

/-- The values taken by `for (int r = lo; r < hi; r++)`, in order. -/
def intRange (lo hi : Int) : List Int :=
  (List.range (hi - lo).toNat).map (fun (k : Nat) => lo + (k : Int))

/-- The iterations of `for (rZ = lo; rZ < hi; rZ++) for (rX = lo; rX < hi; rX++)`
as pairs `(rX, rZ)`, in order. -/
def gridCells (lo hi : Int) : List (Int × Int) :=
  (intRange lo hi).flatMap (fun rZ => (intRange lo hi).map (fun rX => (rX, rZ)))

/-! ## initSearchConfig -/

/-- The assignment `config->lookup[idx] = v`. -/
def storeLookup (lookup : Int → Int) (idx v : Int) : Int → Int :=
  fun k => if k = idx then v else lookup k

/-- The table under construction together with the indices stored to so far,
in program order. -/
structure LookupMem where
  lookup : Int → Int
  written : List Int

/-- One of the two loops of initSearchConfig:
`assert(biomes[i] < 256); config->lookup[biomes[i]] = v;`.
The result is `none` when the assertion fails. -/
def markBiomes (v : Int) : List Int → LookupMem → Option LookupMem
  | [], m => some m
  | b :: bs, m =>
    if b < 256 then markBiomes v bs ⟨storeLookup m.lookup b v, m.written ++ [b]⟩
    else none

/-- The function initSearchConfig: the table is zeroed, the included ids are
marked `1`, then the ignored ids are marked `-1`.  Returns the config and the
indices stored to by the two loops, or `none` when an assertion fails. -/
def initSearchConfig (name : String) (fraction : Rat)
    (includedBiomes ignoredBiomes : List Int) : Option (BiomeSearchConfig × List Int) :=
  match markBiomes 1 includedBiomes ⟨fun _ => 0, []⟩ with
  | none => none
  | some m1 =>
    match markBiomes (-1) ignoredBiomes m1 with
    | none => none
    | some m2 => some (⟨name, fraction, m2.lookup⟩, m2.written)

/-! ## Monuments -/

/-- The statement `potential.monuments[potential.numMonuments++] = pos`. -/
def Monuments.push (m : Monuments) (pos : Pos) : Monuments :=
  ⟨m.numMonuments + 1, m.monuments ++ [pos]⟩

/-- The function potentialMonuments. -/
def potentialMonuments (e : Engine) (baseSeed distance : Int) : Monuments :=
  let upper := 23 - distance
  let lower := distance
  let potential : Monuments := ⟨0, []⟩
  let pos := e.getOceanMonumentChunk baseSeed 0 0
  let potential :=
    if pos.x ≥ upper ∧ pos.z ≥ upper then
      potential.push ⟨(pos.x + 0) * 16 + 8, (pos.z + 0) * 16 + 8⟩
    else potential
  let pos := e.getOceanMonumentChunk baseSeed 1 0
  let potential :=
    if pos.x ≤ lower ∧ pos.z ≥ upper then
      potential.push ⟨(pos.x + 32) * 16 + 8, (pos.z + 0) * 16 + 8⟩
    else potential
  let pos := e.getOceanMonumentChunk baseSeed 0 1
  let potential :=
    if pos.x ≥ upper ∧ pos.z ≤ lower then
      potential.push ⟨(pos.x + 0) * 16 + 8, (pos.z + 32) * 16 + 8⟩
    else potential
  let pos := e.getOceanMonumentChunk baseSeed 1 1
  let potential :=
    if pos.x ≤ lower ∧ pos.z ≤ lower then
      potential.push ⟨(pos.x + 32) * 16 + 8, (pos.z + 32) * 16 + 8⟩
    else potential
  potential

/-- The loop of verifyMonuments over the occupied slots. -/
def verifyMonumentsLoop (e : Engine) (g : LayerStack) (rX rZ : Int) : List Pos → Int
  | [] => 0
  | p :: ps =>
    let monX := p.x + rX * 32 * 16
    let monZ := p.z + rZ * 32 * 16
    if e.isViableOceanMonumentPos g monX monZ ≠ 0 then 1
    else verifyMonumentsLoop e g rX rZ ps

/-- The function verifyMonuments. -/
def verifyMonuments (e : Engine) (g : LayerStack) (mon : Monuments) (rX rZ : Int) : Int :=
  verifyMonumentsLoop e g rX rZ (mon.monuments.take mon.numMonuments)

/-! ## Mansions -/

/-- The two nested loops of hasMansions, run over the remaining cells with
the current value of `count`. -/
def hasMansionsLoop (e : Engine) (g : LayerStack) (seed minCount : Int) :
    List (Int × Int) → Int → Int
  | [], _ => 0
  | c :: rest, count =>
    let mansion := e.getMansionPos seed c.1 c.2
    if e.isViableMansionPos g mansion.x mansion.z ≠ 0 then
      if count + 1 ≥ minCount then 1
      else hasMansionsLoop e g seed minCount rest (count + 1)
    else hasMansionsLoop e g seed minCount rest count

/-- The function hasMansions. -/
def hasMansions (e : Engine) (g : LayerStack) (seed radius minCount : Int) : Int :=
  hasMansionsLoop e g seed minCount (gridCells (-radius) radius) 0

/-! ## Spawn biome -/

/-- A non-negative binary floating point value `mant * 2 ^ exp`. -/
structure Dyadic where
  mant : Nat
  exp : Int
deriving DecidableEq, Repr

/-- The rational value of a floating point number. -/
def Dyadic.toRat (d : Dyadic) : Rat := (d.mant : Rat) * (2 : Rat) ^ d.exp

/-- The comparison `x < y` of two floating point values. -/
def Dyadic.blt (x y : Dyadic) : Bool :=
  decide (x.mant * 2 ^ (x.exp - min x.exp y.exp).toNat <
    y.mant * 2 ^ (y.exp - min x.exp y.exp).toNat)

/-- The largest `k` with `2 ^ k ≤ n`, for `n ≥ 1`; the first argument bounds the
number of halvings. -/
def log2Floor : Nat → Nat → Nat
  | 0, _ => 0
  | fuel + 1, n => if n < 2 then 0 else log2Floor fuel (n / 2) + 1

/-- The ratio `a / b` divided by `2 ^ e`, as numerator and denominator. -/
def scaleRatio (a b : Nat) (e : Int) : Nat × Nat :=
  if 0 ≤ e then (a, b * 2 ^ e.toNat) else (a * 2 ^ (-e).toNat, b)

/-- The ratio `a / b` rounded to the nearest floating point number with a significand
of `p` bits, ties to the even significand: `k` is the exponent of the leading bit of
`a / b`, the significand is `a / b / 2 ^ (k - (p - 1))` rounded to an integer. -/
def roundRatio (p a b : Nat) : Dyadic :=
  if a = 0 ∨ b = 0 then ⟨0, 0⟩
  else
    let k0 : Int := (log2Floor a a : Int) - (log2Floor b b : Int)
    let s0 := scaleRatio a b k0
    let k : Int := if s0.2 ≤ s0.1 then k0 else k0 - 1
    let e : Int := k - ((p : Int) - 1)
    let s := scaleRatio a b e
    let n := s.1 / s.2
    let r := s.1 % s.2
    let n' := if 2 * r < s.2 then n else if s.2 < 2 * r then n + 1
      else if n % 2 = 0 then n else n + 1
    ⟨n', e⟩

/-- The exact difference `1 - x` of a floating point value `x ≤ 1`, as numerator and
denominator. -/
def oneMinus (x : Dyadic) : Nat × Nat :=
  if 0 ≤ x.exp then (1 - x.mant * 2 ^ x.exp.toNat, 1)
  else (2 ^ (-x.exp).toNat - x.mant, 2 ^ (-x.exp).toNat)

/-- The exact quotient `x / y` of two floating point values, as numerator and
denominator. -/
def dyadicRatio (x y : Dyadic) : Nat × Nat :=
  (x.mant * 2 ^ (x.exp - min x.exp y.exp).toNat, y.mant * 2 ^ (y.exp - min x.exp y.exp).toNat)

/-- The float constant `0.80f`. -/
def float080 : Dyadic := roundRatio 24 4 5

/-- The float `includeFraction` after `includeFraction /= (18*18)`; before the
division it holds the count exactly. -/
def spawnIncludeFraction (includeCount : Nat) : Dyadic :=
  roundRatio 24 includeCount (18 * 18)

/-- The float `ignoreFraction` after `ignoreFraction /= (18*18)` and
`if (ignoreFraction > 0.80f) { ignoreFraction = 0.80f; }`. -/
def spawnIgnoreFraction (ignoreCount : Nat) : Dyadic :=
  let ignoreFraction := roundRatio 24 ignoreCount (18 * 18)
  if float080.blt ignoreFraction then float080 else ignoreFraction

/-- The double `1.0 - ignoreFraction`. -/
def spawnDenominator (ignoreCount : Nat) : Dyadic :=
  let d := oneMinus (spawnIgnoreFraction ignoreCount)
  roundRatio 53 d.1 d.2

/-- The double `includeFraction / (1.0 - ignoreFraction)`. -/
def spawnQuotient (includeCount ignoreCount : Nat) : Dyadic :=
  let q := dyadicRatio (spawnIncludeFraction includeCount) (spawnDenominator ignoreCount)
  roundRatio 53 q.1 q.2

/-- The comparison `includeFraction / (1.0 - ignoreFraction) >= config->fraction`. -/
def spawnFractionAccepts (includeCount ignoreCount : Nat) (fraction : Rat) : Bool :=
  decide (fraction ≤ (spawnQuotient includeCount ignoreCount).toRat)

/-- The function hasSpawnBiome. -/
def hasSpawnBiome (e : Engine) (g : LayerStack) (spawn : Pos) (config : BiomeSearchConfig) : Int :=
  let areaX := spawn.x >>> 4
  let areaZ := spawn.z >>> 4
  let cells := (List.range (18 * 18)).map
    (fun i => config.lookup (e.genAreaShore g (areaX - 9) (areaZ - 9) i))
  let includeCount := cells.count 1
  let ignoreCount := cells.count (-1)
  if spawnFractionAccepts includeCount ignoreCount config.fraction then 1 else 0

/-! ## The candidate list -/

/-- The scan `while (qhcandidates[startIndex] < startSeed && startIndex < qhcount)
startIndex++` of main, started at index `i` with `rest` the array from index
`i` on.  The array element is read before the index is compared with
`qhcount`; the result is `none` when that read is past the end of the array. -/
def startIndexScan (qhcount : Nat) (startSeed : Int) : List Int → Nat → Option Nat
  | [], _ => none
  | v :: rest, i =>
    if v < startSeed ∧ i < qhcount then startIndexScan qhcount startSeed rest (i + 1)
    else some i

/-- The start index computed by main. -/
def findStartIndex (qhcandidates : List Int) (startSeed : Int) : Option Nat :=
  startIndexScan qhcandidates.length startSeed qhcandidates 0

/-- The header of the worker loop,
`for (i = startIndex; i < qhcount && qhcandidates[i] < endSeed; i += threads)`:
the indices for which the body runs, in order.  The first argument bounds the
number of iterations. -/
def workerLoop (qhcandidates : List Int) (endSeed : Int) (threads : Nat) : Nat → Nat → List Nat
  | 0, _ => []
  | fuel + 1, i =>
    match qhcandidates[i]? with
    | none => []
    | some v =>
      if v < endSeed then i :: workerLoop qhcandidates endSeed threads fuel (i + threads)
      else []

/-- The indices processed by a worker started at `startIndex`. -/
def workerIndices (qhcandidates : List Int) (endSeed : Int) (threads startIndex : Nat) : List Nat :=
  workerLoop qhcandidates endSeed threads qhcandidates.length startIndex

/-- The scan of main, instrumented: the array indices it reads, in order.  A scan
that runs off the end of the array makes its last read at index `qhcount`. -/
def startIndexReads (qhcount : Nat) (startSeed : Int) : List Int → Nat → List Nat
  | [], i => [i]
  | v :: rest, i =>
    if v < startSeed ∧ i < qhcount then i :: startIndexReads qhcount startSeed rest (i + 1)
    else [i]

/-- The indices of the candidate array read by the start index scan of main. -/
def findStartIndexReads (qhcandidates : List Int) (startSeed : Int) : List Nat :=
  startIndexReads qhcandidates.length startSeed qhcandidates 0

/-! ## The pruning cascade -/

/-- The seed `base + (j << 48)`. -/
def saltedSeed (base : Int) (j : Nat) : Int := wrapLong (base + (j : Int) * 2 ^ 48)

/-- The function getBiomeAt. -/
def getBiomeAt (e : Engine) (g : LayerStack) (pos : Pos) : Int :=
  e.genAreaLast g pos.x pos.z

/-- The regional offsets `(rX, rZ)` of the two offset loops, in order. -/
def offsets (hutRadius : Int) : List (Int × Int) :=
  gridCells (-hutRadius - 1) hutRadius

/-- The probe loop `for (j = 0x53; j < 0x58; j++)` over the remaining salts:
whether it ended with `break`, and the draws made. -/
def probeLoop (e : Engine) (base x z : Int) : List Nat → Bool × List Event
  | [] => (false, [])
  | j :: js =>
    let seed := saltedSeed base j
    if e.mcNextInt seed x z 6 = 5 then
      (true, [Event.setWorldSeed seed, Event.mcNextInt seed x z])
    else
      let r := probeLoop e base x z js
      (r.1, Event.setWorldSeed seed :: Event.mcNextInt seed x z :: r.2)

/-- The salts probed before the sweep. -/
def probeSalts : List Nat := [0x53, 0x54, 0x55, 0x56, 0x57]

/-- The positions `qhpos[0..3]`. -/
def quadHutPos (e : Engine) (base rX rZ : Int) : List Pos :=
  [e.getWitchHutPos base (0 + rX) (0 + rZ), e.getWitchHutPos base (0 + rX) (1 + rZ),
   e.getWitchHutPos base (1 + rX) (0 + rZ), e.getWitchHutPos base (1 + rX) (1 + rZ)]

/-- The number `swpc` of the three neighbouring cells whose draw is 5. -/
def swampCount (e : Engine) (seed areaX areaZ : Int) : Nat :=
  (if e.mcNextInt seed areaX (areaZ + 1) 6 = 5 then 1 else 0) +
  (if e.mcNextInt seed (areaX + 1) areaZ 6 = 5 then 1 else 0) +
  (if e.mcNextInt seed areaX areaZ 6 = 5 then 1 else 0)

/-- The three draws made by the periodic check. -/
def swampCountEvents (seed areaX areaZ : Int) : List Event :=
  [Event.mcNextInt seed areaX (areaZ + 1), Event.mcNextInt seed (areaX + 1) areaZ,
   Event.mcNextInt seed areaX areaZ]

/-- The four tests `getBiomeAt(g, qhpos[k], lastLayerCache) != swampland`, each
ending the iteration at the first failure: whether all passed, and the calls made. -/
def hutChecks (e : Engine) (seed : Int) : List Pos → Bool × List Event
  | [] => (true, [])
  | p :: ps =>
    if getBiomeAt e seed p ≠ e.swampland then (false, [Event.getBiomeAt seed p])
    else
      let r := hutChecks e seed ps
      (r.1, Event.getBiomeAt seed p :: r.2)

/-- The part of the salt loop body after `hutHits++`: the auxiliary checks
and the `fprintf`. -/
def auxChecks (e : Engine) (opts : SearchOptions) (monuments : Monuments)
    (rX rZ seed : Int) : List Event :=
  let t1 := if opts.monumentDistance ≠ 0 then [Event.verifyMonuments seed rX rZ] else []
  if opts.monumentDistance ≠ 0 ∧ verifyMonuments e seed monuments rX rZ = 0 then t1
  else
    let t2 := t1 ++ (if opts.woodlandMansions ≠ 0 then [Event.hasMansions seed] else [])
    if opts.woodlandMansions ≠ 0 ∧
        hasMansions e seed seed opts.mansionRadius opts.woodlandMansions = 0 then t2
    else
      match opts.spawnBiomes with
      | some config =>
        if hasSpawnBiome e seed (e.getSpawn seed seed) config = 0 then
          t2 ++ [Event.hasSpawnBiome seed]
        else t2 ++ [Event.hasSpawnBiome seed, Event.print seed]
      | none => t2 ++ [Event.print seed]

/-- The salt loop body from the single-cell draw on: the new value of
`hutHits` and the calls made. -/
def cascade (e : Engine) (opts : SearchOptions) (monuments : Monuments)
    (rX rZ : Int) (qhpos : List Pos) (seed : Int) (hutHits : Nat) : Nat × List Event :=
  let areaX := 2 * rX + 1
  let areaZ := 2 * rZ + 1
  let t1 := [Event.mcNextInt seed (areaX + 1) (areaZ + 1)]
  if e.mcNextInt seed (areaX + 1) (areaZ + 1) 6 ≠ 5 then (hutHits, t1)
  else
    let t2 := t1 ++ [Event.genAreaFilter seed (areaX + 1) (areaZ + 1)]
    if e.genAreaFilter seed (areaX + 1) (areaZ + 1) ≠ e.swampland then (hutHits, t2)
    else
      let h := hutChecks e seed qhpos
      let t3 := t2 ++ Event.applySeed seed :: h.2
      if h.1 = false then (hutHits, t3)
      else (hutHits + 1, t3 ++ auxChecks e opts monuments rX rZ seed)

/-- One pass through the body of `for (j = 0; j < 0x10000; j++)`. -/
def saltBody (e : Engine) (opts : SearchOptions) (monuments : Monuments)
    (base rX rZ : Int) (qhpos : List Pos) (j hutHits : Nat) : Flow × Nat × List Event :=
  let seed := saltedSeed base j
  let areaX := 2 * rX + 1
  let areaZ := 2 * rZ + 1
  if hutHits = 0 ∧ j &&& 0xfff = 0xfff then
    if swampCount e seed areaX areaZ < (if j > 0x1000 then 2 else 1) then
      (Flow.stop, hutHits, Event.setWorldSeed seed :: swampCountEvents seed areaX areaZ)
    else
      let r := cascade e opts monuments rX rZ qhpos seed hutHits
      (Flow.next, r.1, Event.setWorldSeed seed :: swampCountEvents seed areaX areaZ ++ r.2)
  else
    let r := cascade e opts monuments rX rZ qhpos seed hutHits
    (Flow.next, r.1, Event.setWorldSeed seed :: r.2)

/-- The loop `for (j = ...; j < 0x10000; j++)` with `n` salts left to sweep,
the next one being `j`. -/
def sweepLoop (e : Engine) (opts : SearchOptions) (monuments : Monuments)
    (base rX rZ : Int) (qhpos : List Pos) : Nat → Nat → Nat → List Event
  | 0, _, _ => []
  | n + 1, j, hutHits =>
    match saltBody e opts monuments base rX rZ qhpos j hutHits with
    | (Flow.stop, _, t) => t
    | (Flow.next, hutHits', t) =>
      t ++ sweepLoop e opts monuments base rX rZ qhpos n (j + 1) hutHits'

/-- The body of the two offset loops for one offset `(rX, rZ)`. -/
def searchOffset (e : Engine) (opts : SearchOptions) (monuments : Monuments)
    (baseSeed rX rZ : Int) : List Event :=
  let base := e.moveTemple baseSeed rX rZ
  let areaX := 2 * rX + 1
  let areaZ := 2 * rZ + 1
  let p := probeLoop e base (areaX + 1) (areaZ + 1) probeSalts
  if p.1 = false then Event.moveTemple baseSeed rX rZ :: p.2
  else
    Event.moveTemple baseSeed rX rZ :: p.2 ++
      [Event.getWitchHutPos base (0 + rX) (0 + rZ), Event.getWitchHutPos base (0 + rX) (1 + rZ),
       Event.getWitchHutPos base (1 + rX) (0 + rZ), Event.getWitchHutPos base (1 + rX) (1 + rZ)] ++
      sweepLoop e opts monuments base rX rZ (quadHutPos e base rX rZ) 0x10000 0 0 ++
      [Event.flush]

/-- The two offset loops for one base seed. -/
def offsetLoops (e : Engine) (opts : SearchOptions) (monuments : Monuments)
    (baseSeed : Int) : List Event :=
  (offsets opts.hutRadius).flatMap (fun c => searchOffset e opts monuments baseSeed c.1 c.2)

/-- The number of `fprintf(fh, ...)` calls in a trace. -/
def countPrints (t : List Event) : Nat :=
  (t.filter (fun ev => match ev with
    | Event.print _ => true
    | _ => false)).length

/-- The body of the worker loop for one base seed. -/
def searchCandidate (e : Engine) (opts : SearchOptions) (baseSeed : Int) : List Event :=
  if opts.monumentDistance ≠ 0 then
    let monuments := potentialMonuments e baseSeed opts.monumentDistance
    if monuments.numMonuments = 0 then
      [Event.potentialMonuments baseSeed opts.monumentDistance]
    else
      let t := offsetLoops e opts monuments baseSeed
      Event.potentialMonuments baseSeed opts.monumentDistance :: t ++
        [Event.log baseSeed (countPrints t)]
  else
    let t := offsetLoops e opts ⟨0, []⟩ baseSeed
    t ++ [Event.log baseSeed (countPrints t)]

/-- The function searchQuadHutsThread for the worker whose first index is
`startIndex`.  `fileOk` is false when the output file could not be opened. -/
def searchQuadHutsThread (e : Engine) (opts : SearchOptions) (qhcandidates : List Int)
    (startIndex : Nat) (fileOk : Bool) : List Event :=
  if fileOk = false then []
  else
    (workerIndices qhcandidates opts.endSeed opts.threads.toNat startIndex).flatMap
      (fun i => searchCandidate e opts (qhcandidates.getD i 0))

/-- The seeds written by a worker, in order. -/
def printedSeeds (t : List Event) : List Int :=
  t.filterMap (fun ev => match ev with
    | Event.print s => some s
    | _ => none)

/-- The start index given to worker `t` by main. -/
def threadStartIndex (startIndex t : Nat) : Nat := startIndex + t

/-- The workers started by main, each with the trace of its run; `none` when
the start index scan reads past the end of the candidate array. -/
def mainWorkers (e : Engine) (opts : SearchOptions) (qhcandidates : List Int)
    (fileOk : Nat → Bool) : Option (List (List Event)) :=
  match findStartIndex qhcandidates opts.startSeed with
  | none => none
  | some startIndex =>
    some ((List.range opts.threads.toNat).map (fun t =>
      searchQuadHutsThread e opts qhcandidates (threadStartIndex startIndex t) (fileOk t)))

/-! ## The monument filter as the specification words it -/

/-- The quadrant test of the specification for the candidate `(i, j)` at chunk
position `pos`: `x ≥ 23 - d` when `i = 0` and `x ≤ d` when `i = 1`, likewise for `z`
and `j`. -/
def specQuadrantKept (d i j : Int) (pos : Pos) : Bool :=
  decide ((if i = 0 then pos.x ≥ 23 - d else pos.x ≤ d) ∧
    (if j = 0 then pos.z ≥ 23 - d else pos.z ≤ d))

/-- The block position the specification gives a kept candidate. -/
def specBlockPos (i j : Int) (pos : Pos) : Pos :=
  ⟨(pos.x + 32 * i) * 16 + 8, (pos.z + 32 * j) * 16 + 8⟩

/-- The kept candidates of the specification, in the order (0,0), (1,0), (0,1), (1,1). -/
def specMonuments (e : Engine) (baseSeed d : Int) : List Pos :=
  (([(0, 0), (1, 0), (0, 1), (1, 1)] : List (Int × Int)).filter
    (fun q => specQuadrantKept d q.1 q.2 (e.getOceanMonumentChunk baseSeed q.1 q.2))).map
    (fun q => specBlockPos q.1 q.2 (e.getOceanMonumentChunk baseSeed q.1 q.2))

/-! ## The periodic early abort as the specification words it -/

/-- Whether the salt with seed `seed` passes the four-hut cluster test: the single-cell
draw is 5, the coarse biome is swampland and all four hut positions are swampland. -/
def specClusterPass (e : Engine) (rX rZ : Int) (qhpos : List Pos) (seed : Int) : Bool :=
  decide (e.mcNextInt seed (2 * rX + 1 + 1) (2 * rZ + 1 + 1) 6 = 5) &&
  (decide (e.genAreaFilter seed (2 * rX + 1 + 1) (2 * rZ + 1 + 1) = e.swampland) &&
   qhpos.all (fun p => decide (getBiomeAt e seed p = e.swampland)))

/-- The early-abort test is due at salt `j`: `j mod 4096 = 4095` and no earlier salt of
the offset has passed the cluster test. -/
def specAbortDue (e : Engine) (base rX rZ : Int) (qhpos : List Pos) (j : Nat) : Bool :=
  decide (j % 4096 = 4095) &&
  (List.range j).all (fun k => !specClusterPass e rX rZ qhpos (saltedSeed base k))

/-- The three cells sampled by the early-abort test. -/
def specAbortCells (rX rZ : Int) : List (Int × Int) :=
  [(2 * rX + 1, 2 * rZ + 1 + 1), (2 * rX + 1 + 1, 2 * rZ + 1), (2 * rX + 1, 2 * rZ + 1)]

/-- How many of the three cells have draw 5. -/
def specSwampCount (e : Engine) (seed rX rZ : Int) : Nat :=
  ((specAbortCells rX rZ).filter (fun c => decide (e.mcNextInt seed c.1 c.2 6 = 5))).length

/-- The count the test requires: 1 at salt `0xfff`, 2 at every later check. -/
def specRequired (j : Nat) : Nat := if j = 0xfff then 1 else 2

/-- The early-abort test is due at salt `j` and its requirement fails. -/
def specAbortFails (e : Engine) (base rX rZ : Int) (qhpos : List Pos) (j : Nat) : Bool :=
  specAbortDue e base rX rZ qhpos j &&
  decide (specSwampCount e (saltedSeed base j) rX rZ < specRequired j)

/-- The world seed for which a call of the salt loop is made, for the calls that
carry one. -/
def Event.sweepSeed : Event → Option Int
  | Event.setWorldSeed s => some s
  | Event.mcNextInt s _ _ => some s
  | Event.genAreaFilter s _ _ => some s
  | Event.applySeed s => some s
  | Event.getBiomeAt s _ => some s
  | Event.verifyMonuments s _ _ => some s
  | Event.hasMansions s => some s
  | Event.hasSpawnBiome s => some s
  | Event.print s => some s
  | _ => none

/-- Whether a call evaluates or emits a salt of the offset `(rX, rZ)`: the single-cell
draw at `(areaX+1, areaZ+1)`, the coarse classification, the full generation with its hut
tests, an auxiliary check, or the write of the seed. -/
def Event.isCascadeStep (rX rZ : Int) : Event → Bool
  | Event.mcNextInt _ x z => decide (x = 2 * rX + 1 + 1 ∧ z = 2 * rZ + 1 + 1)
  | Event.genAreaFilter _ _ _ => true
  | Event.applySeed _ => true
  | Event.getBiomeAt _ _ => true
  | Event.verifyMonuments _ _ _ => true
  | Event.hasMansions _ => true
  | Event.hasSpawnBiome _ => true
  | Event.print _ => true
  | _ => false

/-- What is done for a salt whose early-abort test is not due or passes: the seeding,
the three draws of the test when it is due, then the cascade. -/
def specSaltTrace (e : Engine) (opts : SearchOptions) (monuments : Monuments)
    (base rX rZ : Int) (qhpos : List Pos) (j : Nat) : List Event :=
  Event.setWorldSeed (saltedSeed base j) ::
    ((if specAbortDue e base rX rZ qhpos j = true then
        swampCountEvents (saltedSeed base j) (2 * rX + 1) (2 * rZ + 1)
      else []) ++
     (cascade e opts monuments rX rZ qhpos (saltedSeed base j) 0).2)

/-- What is done for the salt at which the requirement fails: the seeding and the three
draws of the test, nothing else. -/
def specAbortTrace (base rX rZ : Int) (j : Nat) : List Event :=
  Event.setWorldSeed (saltedSeed base j) ::
    swampCountEvents (saltedSeed base j) (2 * rX + 1) (2 * rZ + 1)

/-! ## Sample inputs -/

/-- A library instance in which no draw is ever 5, every biome is 0, every monument
chunk is `(10, 10)` and nothing is viable. -/
def sampleEngine : Engine :=
  ⟨6, fun b _ _ => b, fun _ _ _ _ => 0, fun _ _ _ => 0, fun _ x z => ⟨x, z⟩,
   fun _ _ _ => 0, fun _ _ _ => ⟨10, 10⟩, fun _ _ _ => 0, fun _ x z => ⟨x, z⟩,
   fun _ _ _ => 0, fun _ _ => ⟨0, 0⟩, fun _ _ _ _ => 0⟩

/-- The sample library with the monument chunk of candidate (0,0) replaced by `pos`. -/
def chunkEngine (pos : Pos) : Engine :=
  ⟨6, fun b _ _ => b, fun _ _ _ _ => 0, fun _ _ _ => 0, fun _ x z => ⟨x, z⟩,
   fun _ _ _ => 0, fun _ i j => if i = 0 ∧ j = 0 then pos else ⟨10, 10⟩, fun _ _ _ => 0,
   fun _ x z => ⟨x, z⟩, fun _ _ _ => 0, fun _ _ => ⟨0, 0⟩, fun _ _ _ _ => 0⟩

/-- A library instance in which every draw is 5, every biome is swampland and
everything is viable. -/
def acceptEngine : Engine :=
  ⟨6, fun b _ _ => b, fun _ _ _ _ => 5, fun _ _ _ => 6, fun _ x z => ⟨x, z⟩,
   fun _ _ _ => 6, fun _ _ _ => ⟨23, 23⟩, fun _ _ _ => 1, fun _ x z => ⟨x, z⟩,
   fun _ _ _ => 1, fun _ _ => ⟨0, 0⟩, fun _ _ _ _ => 0⟩

/-- Options with `hutRadius = 0`, one thread and no auxiliary check. -/
def smallOptions : SearchOptions :=
  ⟨0, 0, 0, 0, 2 ^ 48, 1, none, 0, 0⟩

/-- A spawn window with 41 cells of biome 14, then 242 cells of biome 0, then 41 cells
of biome 1, whatever the position. -/
def spawnSampleEngine : Engine :=
  ⟨6, fun b _ _ => b, fun _ _ _ _ => 0, fun _ _ _ => 0, fun _ x z => ⟨x, z⟩,
   fun _ _ _ => 0, fun _ _ _ => ⟨10, 10⟩, fun _ _ _ => 0, fun _ x z => ⟨x, z⟩,
   fun _ _ _ => 0, fun _ _ => ⟨0, 0⟩,
   fun _ _ _ i => if i < 41 then 14 else if i < 283 then 0 else 1⟩

/-- A config with fraction `0.50f` that includes biome 14 and ignores biome 0. -/
def spawnSampleConfig : BiomeSearchConfig :=
  ⟨"sample", 1 / 2, fun k => if k = 14 then 1 else if k = 0 then -1 else 0⟩

/-- The default options of parseOptions with `monumentDistance = d`. -/
def monumentOptions (d : Int) : SearchOptions :=
  ⟨2048, 4, 2, 0, 2 ^ 48, 1, none, d, 0⟩

/-- The default options of parseOptions with `startSeed = 500`. -/
def sampleOptions : SearchOptions :=
  ⟨2048, 4, 2, 500, 2 ^ 48, 1, none, 0, 0⟩

/-! ## The worker loop header -/

theorem workerLoop_range (qhcandidates : List Int) (endSeed : Int) (n : Nat) (hn : 1 ≤ n) :
    ∀ (fuel i : Nat), qhcandidates.length ≤ i + fuel →
      ∃ M, workerLoop qhcandidates endSeed n fuel i = (List.range M).map (fun m => i + m * n) ∧
        (∀ m, m < M → ∃ v, qhcandidates[i + m * n]? = some v ∧ v < endSeed) ∧
        (qhcandidates.length ≤ i + M * n ∨
          ∃ v, qhcandidates[i + M * n]? = some v ∧ endSeed ≤ v) := by
  intro fuel
  induction fuel with
  | zero =>
    intro i hi
    exact ⟨0, by simp [workerLoop], by simp, Or.inl (by simpa using hi)⟩
  | succ fuel ih =>
    intro i hi
    cases hget : qhcandidates[i]? with
    | none =>
      refine ⟨0, by simp [workerLoop, hget], by simp, Or.inl ?_⟩
      simpa using hget
    | some v =>
      by_cases hv : v < endSeed
      · obtain ⟨M, hM, hlt, hstop⟩ := ih (i + n) (by omega)
        refine ⟨M + 1, ?_, ?_, ?_⟩
        · simp only [workerLoop, hget, hv, if_true, hM, List.range_succ_eq_map, List.map_cons,
            List.map_map, zero_mul, add_zero]
          congr 1
          apply List.map_congr_left
          intro m _
          simp only [Function.comp, Nat.succ_eq_add_one]
          ring
        · intro m hm
          cases m with
          | zero => exact ⟨v, by simpa using hget, hv⟩
          | succ m =>
            obtain ⟨w, hw, hwlt⟩ := hlt m (by omega)
            refine ⟨w, ?_, hwlt⟩
            rw [← hw]; congr 1; ring
        · have e1 : i + (M + 1) * n = i + n + M * n := by ring
          rw [e1]; exact hstop
      · refine ⟨0, by simp [workerLoop, hget, hv], by simp, Or.inr ⟨v, by simpa using hget, ?_⟩⟩
        omega

theorem mem_workerLoop_bounds (qhcandidates : List Int) (endSeed : Int) (n : Nat) :
    ∀ (fuel i k : Nat), k ∈ workerLoop qhcandidates endSeed n fuel i →
      i ≤ k ∧ ∃ v, qhcandidates[k]? = some v ∧ v < endSeed := by
  intro fuel
  induction fuel with
  | zero => intro i k hk; simp [workerLoop] at hk
  | succ fuel ih =>
    intro i k hk
    cases hget : qhcandidates[i]? with
    | none => simp [workerLoop, hget] at hk
    | some v =>
      by_cases hv : v < endSeed
      · simp only [workerLoop, hget, hv, if_true, List.mem_cons] at hk
        rcases hk with rfl | hk
        · exact ⟨le_refl _, v, hget, hv⟩
        · obtain ⟨h1, h2⟩ := ih (i + n) k hk
          exact ⟨by omega, h2⟩
      · simp [workerLoop, hget, hv] at hk

theorem mem_workerIndices_iff (qhcandidates : List Int) (endSeed : Int) (n s : Nat) (hn : 1 ≤ n)
    (k : Nat) :
    k ∈ workerIndices qhcandidates endSeed n s ↔
      ∃ m, k = s + m * n ∧ ∀ m', m' ≤ m → ∃ v, qhcandidates[s + m' * n]? = some v ∧ v < endSeed := by
  obtain ⟨M, hM, hlt, hstop⟩ :=
    workerLoop_range qhcandidates endSeed n hn qhcandidates.length s (by omega)
  unfold workerIndices
  rw [hM]
  simp only [List.mem_map, List.mem_range]
  constructor
  · rintro ⟨m, hm, rfl⟩
    exact ⟨m, rfl, fun m' hm' => hlt m' (by omega)⟩
  · rintro ⟨m, rfl, hall⟩
    refine ⟨m, ?_, rfl⟩
    by_contra hcon
    obtain ⟨v, hv, hvlt⟩ := hall M (by omega)
    rcases hstop with hlen | ⟨w, hw, hwle⟩
    · have := List.getElem?_eq_none hlen
      rw [this] at hv; cases hv
    · rw [hw] at hv
      cases hv
      omega

theorem mem_workerIndices_of_all_lt (qhcandidates : List Int) (endSeed : Int) (n s : Nat)
    (hn : 1 ≤ n) (hall : ∀ v ∈ qhcandidates, v < endSeed) (k : Nat) :
    k ∈ workerIndices qhcandidates endSeed n s ↔
      ∃ m, k = s + m * n ∧ k < qhcandidates.length := by
  rw [mem_workerIndices_iff qhcandidates endSeed n s hn]
  constructor
  · rintro ⟨m, rfl, h⟩
    obtain ⟨v, hv, _⟩ := h m (le_refl _)
    refine ⟨m, rfl, ?_⟩
    by_contra hcon
    rw [List.getElem?_eq_none (by omega)] at hv
    cases hv
  · rintro ⟨m, rfl, hlt⟩
    refine ⟨m, rfl, fun m' hm' => ?_⟩
    have hle : s + m' * n ≤ s + m * n := by
      have := Nat.mul_le_mul_right n hm'
      omega
    have hlt' : s + m' * n < qhcandidates.length := by omega
    refine ⟨qhcandidates[s + m' * n], List.getElem?_eq_getElem hlt', ?_⟩
    exact hall _ (List.getElem_mem hlt')

theorem workerIndices_nodup (qhcandidates : List Int) (endSeed : Int) (n s : Nat) (hn : 1 ≤ n) :
    (workerIndices qhcandidates endSeed n s).Nodup := by
  obtain ⟨M, hM, -, -⟩ :=
    workerLoop_range qhcandidates endSeed n hn qhcandidates.length s (by omega)
  unfold workerIndices
  rw [hM]
  refine List.Nodup.map ?_ (List.nodup_range M)
  intro a b hab
  have h1 : a * n = b * n := by simpa using hab
  exact Nat.eq_of_mul_eq_mul_right (by omega) h1

/-- C2 (sharding completeness and disjointness).  With `n ≥ 1` workers, start index `s`
and every candidate below the end-seed bound, the workers started at `s + t` for
`t < n` process between them exactly the indices `s ≤ i < qhcount`; no index is
processed by two workers, and none twice by the same worker. -/
theorem sharding_complete_disjoint (qhcandidates : List Int) (endSeed : Int) (n s : Nat)
    (hn : 1 ≤ n) (hall : ∀ v ∈ qhcandidates, v < endSeed) :
    (∀ i, (∃ t, t < n ∧ i ∈ workerIndices qhcandidates endSeed n (threadStartIndex s t)) ↔
        (s ≤ i ∧ i < qhcandidates.length)) ∧
    (∀ i t t', t < n → t' < n →
        i ∈ workerIndices qhcandidates endSeed n (threadStartIndex s t) →
        i ∈ workerIndices qhcandidates endSeed n (threadStartIndex s t') → t = t') ∧
    (∀ t, (workerIndices qhcandidates endSeed n (threadStartIndex s t)).Nodup) := by
  refine ⟨fun i => ⟨?_, ?_⟩, ?_, fun t => workerIndices_nodup _ _ _ _ hn⟩
  · rintro ⟨t, -, hi⟩
    rw [mem_workerIndices_of_all_lt _ _ _ _ hn hall] at hi
    obtain ⟨m, rfl, hlt⟩ := hi
    unfold threadStartIndex at *
    exact ⟨by omega, hlt⟩
  · rintro ⟨hs, hlt⟩
    refine ⟨(i - s) % n, Nat.mod_lt _ (by omega), ?_⟩
    rw [mem_workerIndices_of_all_lt _ _ _ _ hn hall]
    refine ⟨(i - s) / n, ?_, hlt⟩
    unfold threadStartIndex
    have := Nat.mod_add_div (i - s) n
    have hc : (i - s) / n * n = n * ((i - s) / n) := Nat.mul_comm _ _
    omega
  · intro i t t' ht ht' h1 h2
    rw [mem_workerIndices_of_all_lt _ _ _ _ hn hall] at h1 h2
    obtain ⟨m, hm, -⟩ := h1
    obtain ⟨m', hm', -⟩ := h2
    unfold threadStartIndex at *
    have e1 : (s + t + m * n - s) % n = t := by
      have : s + t + m * n - s = t + m * n := by omega
      rw [this, Nat.add_mul_mod_self_right, Nat.mod_eq_of_lt ht]
    have e2 : (s + t' + m' * n - s) % n = t' := by
      have : s + t' + m' * n - s = t' + m' * n := by omega
      rw [this, Nat.add_mul_mod_self_right, Nat.mod_eq_of_lt ht']
    rw [← e1, ← e2, ← hm, ← hm']

/-- Witness for C2: three workers over five candidates, all below the bound. -/
theorem sharding_complete_disjoint_witness :
    (∀ i, (∃ t, t < 3 ∧ i ∈ workerIndices [10, 20, 30, 40, 50] 100 3 (threadStartIndex 1 t)) ↔
        (1 ≤ i ∧ i < ([10, 20, 30, 40, 50] : List Int).length)) ∧
    (∀ i t t', t < 3 → t' < 3 →
        i ∈ workerIndices [10, 20, 30, 40, 50] 100 3 (threadStartIndex 1 t) →
        i ∈ workerIndices [10, 20, 30, 40, 50] 100 3 (threadStartIndex 1 t') → t = t') ∧
    (∀ t, (workerIndices [10, 20, 30, 40, 50] 100 3 (threadStartIndex 1 t)).Nodup) :=
  sharding_complete_disjoint [10, 20, 30, 40, 50] 100 3 1 (by decide) (by decide)

/-- C4 (end-seed bound of the worker loop, as the code has it).  A worker with start
index `s` and stride `n ≥ 1` processes the indices `s, s+n, s+2n, ...` in order and
stops at the first of them that has reached the candidate count or whose candidate is
not below `endSeed`.  So an index on the stride is processed exactly when it and all
earlier stride indices hold candidates strictly below `endSeed`; a candidate equal to
`endSeed` is not processed. -/
theorem workerIndices_until_endSeed (qhcandidates : List Int) (endSeed : Int) (n s : Nat)
    (hn : 1 ≤ n) :
    (∃ M, workerIndices qhcandidates endSeed n s = (List.range M).map (fun m => s + m * n) ∧
        (∀ m, m < M → ∃ v, qhcandidates[s + m * n]? = some v ∧ v < endSeed) ∧
        (qhcandidates.length ≤ s + M * n ∨
          ∃ v, qhcandidates[s + M * n]? = some v ∧ endSeed ≤ v)) ∧
    (∀ k, k ∈ workerIndices qhcandidates endSeed n s ↔
        ∃ m, k = s + m * n ∧
          ∀ m', m' ≤ m → ∃ v, qhcandidates[s + m' * n]? = some v ∧ v < endSeed) ∧
    (∀ k, qhcandidates[k]? = some endSeed → k ∉ workerIndices qhcandidates endSeed n s) := by
  refine ⟨workerLoop_range qhcandidates endSeed n hn qhcandidates.length s (by omega),
    mem_workerIndices_iff qhcandidates endSeed n s hn, ?_⟩
  intro k hk hmem
  obtain ⟨-, v, hv, hlt⟩ := mem_workerLoop_bounds _ _ _ _ _ _ hmem
  rw [hk] at hv
  cases hv
  omega

/-- Witness for C4: stride 2 from index 0 over `[1, 9, 2, 9, 7, 9, 3]` with bound 7. -/
theorem workerIndices_until_endSeed_witness :
    (∃ M, workerIndices [1, 9, 2, 9, 7, 9, 3] 7 2 0 = (List.range M).map (fun m => 0 + m * 2) ∧
        (∀ m, m < M → ∃ v, ([1, 9, 2, 9, 7, 9, 3] : List Int)[0 + m * 2]? = some v ∧ v < 7) ∧
        (([1, 9, 2, 9, 7, 9, 3] : List Int).length ≤ 0 + M * 2 ∨
          ∃ v, ([1, 9, 2, 9, 7, 9, 3] : List Int)[0 + M * 2]? = some v ∧ 7 ≤ v)) ∧
    (∀ k, k ∈ workerIndices [1, 9, 2, 9, 7, 9, 3] 7 2 0 ↔
        ∃ m, k = 0 + m * 2 ∧
          ∀ m', m' ≤ m → ∃ v, ([1, 9, 2, 9, 7, 9, 3] : List Int)[0 + m' * 2]? = some v ∧ v < 7) ∧
    (∀ k, ([1, 9, 2, 9, 7, 9, 3] : List Int)[k]? = some 7 →
        k ∉ workerIndices [1, 9, 2, 9, 7, 9, 3] 7 2 0) :=
  workerIndices_until_endSeed [1, 9, 2, 9, 7, 9, 3] 7 2 0 (by decide)

/-- C4 as stated fails: the single candidate 500 equals `endSeed = 500`, lies on the
stride of the worker started at index 0, and is not processed. -/
theorem endSeed_candidate_not_processed :
    ([500] : List Int)[0]? = some 500 ∧ workerIndices [500] 500 1 0 = [] := by
  decide

/-! ## The start index -/

theorem startIndexScan_least (qhcount : Nat) (startSeed : Int) :
    ∀ (rest : List Int) (i : Nat), i + rest.length ≤ qhcount →
      (∃ v ∈ rest, startSeed ≤ v) →
      ∃ k, startIndexScan qhcount startSeed rest i = some (i + k) ∧
        (∃ v, rest[k]? = some v ∧ startSeed ≤ v) ∧
        ∀ k', k' < k → ∃ v, rest[k']? = some v ∧ v < startSeed := by
  intro rest
  induction rest with
  | nil => intro i _ h; simp at h
  | cons v rest ih =>
    intro i hlen hex
    by_cases hv : v < startSeed
    · have hi : i < qhcount := by simp at hlen; omega
      have hex' : ∃ w ∈ rest, startSeed ≤ w := by
        obtain ⟨w, hw, hle⟩ := hex
        rcases List.mem_cons.mp hw with rfl | hw
        · omega
        · exact ⟨w, hw, hle⟩
      obtain ⟨k, hk, hge, hlt⟩ := ih (i + 1) (by simp at hlen; omega) hex'
      refine ⟨k + 1, ?_, ?_, ?_⟩
      · simp only [startIndexScan, hv, hi, and_self, if_true, hk]
        congr 1; omega
      · simpa using hge
      · intro k' hk'
        cases k' with
        | zero => exact ⟨v, by simp, hv⟩
        | succ k' => simpa using hlt k' (by omega)
    · refine ⟨0, ?_, ⟨v, by simp, by omega⟩, ?_⟩
      · simp [startIndexScan, hv]
      · intro k' hk'; omega

theorem pairwise_le_of_getElem (l : List Int) (h : l.Pairwise (· ≤ ·)) (a b : Nat) (va vb : Int)
    (hab : a ≤ b) (ha : l[a]? = some va) (hb : l[b]? = some vb) : va ≤ vb := by
  rcases Nat.eq_or_lt_of_le hab with rfl | hlt
  · rw [ha] at hb; cases hb; exact le_refl _
  · have hbl : b < l.length := by
      by_contra hcon
      rw [List.getElem?_eq_none (by omega)] at hb; cases hb
    have hal : a < l.length := by omega
    rw [List.getElem?_eq_getElem hal] at ha
    rw [List.getElem?_eq_getElem hbl] at hb
    cases ha; cases hb
    exact List.pairwise_iff_getElem.mp h a b hal hbl hlt

/-- C3 (start index).  For an ascending candidate list holding at least one value
`≥ startSeed`, the scan of main ends at the least index `k` whose candidate is
`≥ startSeed` (every earlier index holds a value `< startSeed`); main starts worker `t`
at `k + t`; and every index a worker processes holds a candidate `≥ startSeed`, so no
candidate below `startSeed` is evaluated. -/
theorem findStartIndex_least (e : Engine) (opts : SearchOptions) (qhcandidates : List Int)
    (fileOk : Nat → Bool)
    (hasc : qhcandidates.Pairwise (· ≤ ·))
    (hex : ∃ v ∈ qhcandidates, opts.startSeed ≤ v) :
    ∃ k, findStartIndex qhcandidates opts.startSeed = some k ∧
      (∃ v, qhcandidates[k]? = some v ∧ opts.startSeed ≤ v) ∧
      (∀ i, i < k → ∃ v, qhcandidates[i]? = some v ∧ v < opts.startSeed) ∧
      mainWorkers e opts qhcandidates fileOk =
        some ((List.range opts.threads.toNat).map (fun t =>
          searchQuadHutsThread e opts qhcandidates (k + t) (fileOk t))) ∧
      (∀ t i, i ∈ workerIndices qhcandidates opts.endSeed opts.threads.toNat
            (threadStartIndex k t) →
          ∃ v, qhcandidates[i]? = some v ∧ opts.startSeed ≤ v) := by
  obtain ⟨k, hk, hge, hlt⟩ :=
    startIndexScan_least qhcandidates.length opts.startSeed qhcandidates 0 (by omega) hex
  simp only [zero_add] at hk
  have hk' : findStartIndex qhcandidates opts.startSeed = some k := hk
  refine ⟨k, hk', hge, hlt, ?_, ?_⟩
  · simp [mainWorkers, hk', threadStartIndex]
  · intro t i hi
    obtain ⟨hle, v, hv, -⟩ := mem_workerLoop_bounds _ _ _ _ _ _ hi
    obtain ⟨w, hw, hwle⟩ := hge
    refine ⟨v, hv, ?_⟩
    have := pairwise_le_of_getElem qhcandidates hasc k i w v
      (by unfold threadStartIndex at hle; omega) hw hv
    omega

/-- Witness for C3: candidates `[100, 500, 999]`, `startSeed = 500`, one thread.  The
start index is 1 and the worker processes the indices 1 and 2 only, so seed 100 is
never evaluated. -/
theorem findStartIndex_least_witness :
    (∃ k, findStartIndex [100, 500, 999] sampleOptions.startSeed = some k ∧
      (∃ v, ([100, 500, 999] : List Int)[k]? = some v ∧ sampleOptions.startSeed ≤ v) ∧
      (∀ i, i < k → ∃ v, ([100, 500, 999] : List Int)[i]? = some v ∧
        v < sampleOptions.startSeed) ∧
      mainWorkers sampleEngine sampleOptions [100, 500, 999] (fun _ => true) =
        some ((List.range sampleOptions.threads.toNat).map (fun t =>
          searchQuadHutsThread sampleEngine sampleOptions [100, 500, 999] (k + t) true)) ∧
      (∀ t i, i ∈ workerIndices [100, 500, 999] sampleOptions.endSeed
            sampleOptions.threads.toNat (threadStartIndex k t) →
          ∃ v, ([100, 500, 999] : List Int)[i]? = some v ∧ sampleOptions.startSeed ≤ v)) ∧
    sampleOptions.startSeed = 500 ∧ sampleOptions.threads = 1 ∧
    findStartIndex [100, 500, 999] 500 = some 1 ∧
    workerIndices [100, 500, 999] sampleOptions.endSeed 1 (threadStartIndex 1 0) = [1, 2] :=
  ⟨findStartIndex_least sampleEngine sampleOptions [100, 500, 999] (fun _ => true)
    (by decide) ⟨500, by decide, by decide⟩, by decide, by decide, by decide, by decide⟩

/-! ## Loop ranges -/

theorem length_intRange (lo hi : Int) : (intRange lo hi).length = (hi - lo).toNat := by
  simp [intRange]

theorem mem_intRange (lo hi x : Int) : x ∈ intRange lo hi ↔ lo ≤ x ∧ x < hi := by
  simp only [intRange, List.mem_map, List.mem_range]
  constructor
  · rintro ⟨k, hk, rfl⟩
    omega
  · rintro ⟨h1, h2⟩
    exact ⟨(x - lo).toNat, by omega, by omega⟩

theorem nodup_intRange (lo hi : Int) : (intRange lo hi).Nodup := by
  unfold intRange
  refine List.Nodup.map ?_ (List.nodup_range _)
  intro a b hab
  have : lo + (a : Int) = lo + (b : Int) := hab
  omega

theorem length_flatMap_map {α β γ : Type} (f : α → β → γ) (l2 : List β) :
    ∀ (l : List α), (l.flatMap (fun a => l2.map (f a))).length = l.length * l2.length := by
  intro l
  induction l with
  | nil => simp
  | cons a l ih =>
    rw [List.flatMap_cons, List.length_append, ih, List.length_map, List.length_cons]
    ring

theorem length_gridCells (lo hi : Int) :
    (gridCells lo hi).length = (hi - lo).toNat * (hi - lo).toNat := by
  unfold gridCells
  rw [length_flatMap_map (fun (rZ rX : Int) => (rX, rZ)), length_intRange]

theorem mem_gridCells (lo hi : Int) (c : Int × Int) :
    c ∈ gridCells lo hi ↔ (lo ≤ c.1 ∧ c.1 < hi) ∧ (lo ≤ c.2 ∧ c.2 < hi) := by
  obtain ⟨a, b⟩ := c
  simp only [gridCells, List.mem_flatMap, List.mem_map, mem_intRange, Prod.mk.injEq]
  constructor
  · rintro ⟨rZ, hz, rX, hx, rfl, rfl⟩
    exact ⟨hx, hz⟩
  · rintro ⟨hx, hz⟩
    exact ⟨b, hz, a, hx, rfl, rfl⟩

theorem nodup_gridCells (lo hi : Int) : (gridCells lo hi).Nodup := by
  unfold gridCells
  rw [List.nodup_flatMap]
  refine ⟨fun rZ _ => ?_, ?_⟩
  · refine List.Nodup.map ?_ (nodup_intRange lo hi)
    intro a b hab
    exact (Prod.mk.inj hab).1
  · refine List.Pairwise.imp_of_mem ?_ (nodup_intRange lo hi)
    intro a b _ _ hab
    intro c hc1 hc2
    simp only [List.mem_map] at hc1 hc2
    obtain ⟨_, _, rfl⟩ := hc1
    obtain ⟨_, _, h⟩ := hc2
    exact hab (Prod.mk.inj h).2.symm

/-- C5 (regional-offset window, as the code has it).  For `hutRadius ≥ 0` the two offset
loops visit exactly `(2*hutRadius + 1)^2` offsets, each once: the pairs `(rX, rZ)` with
`-hutRadius-1 ≤ rX < hutRadius` and `-hutRadius-1 ≤ rZ < hutRadius`, so `rX` and `rZ`
each range over `2*hutRadius + 1` consecutive integers. -/
theorem offsets_window (e : Engine) (opts : SearchOptions) (monuments : Monuments)
    (baseSeed : Int) (h0 : 0 ≤ opts.hutRadius) :
    offsetLoops e opts monuments baseSeed =
      (offsets opts.hutRadius).flatMap
        (fun c => searchOffset e opts monuments baseSeed c.1 c.2) ∧
    ((offsets opts.hutRadius).length : Int) = (2 * opts.hutRadius + 1) ^ 2 ∧
    (offsets opts.hutRadius).Nodup ∧
    (∀ rX rZ, (rX, rZ) ∈ offsets opts.hutRadius ↔
      (-opts.hutRadius - 1 ≤ rX ∧ rX < opts.hutRadius) ∧
      (-opts.hutRadius - 1 ≤ rZ ∧ rZ < opts.hutRadius)) ∧
    ((intRange (-opts.hutRadius - 1) opts.hutRadius).length : Int) = 2 * opts.hutRadius + 1 := by
  refine ⟨rfl, ?_, nodup_gridCells _ _, fun rX rZ => mem_gridCells _ _ (rX, rZ), ?_⟩
  · unfold offsets
    rw [length_gridCells]
    have : ((opts.hutRadius - (-opts.hutRadius - 1)).toNat : Int) = 2 * opts.hutRadius + 1 := by
      omega
    push_cast
    rw [this]
    ring
  · rw [length_intRange]
    omega

/-- Witness for C5: the default `hutRadius = 4` gives 81 offsets. -/
theorem offsets_window_witness :
    (offsetLoops sampleEngine sampleOptions ⟨0, []⟩ 0 =
      (offsets sampleOptions.hutRadius).flatMap
        (fun c => searchOffset sampleEngine sampleOptions ⟨0, []⟩ 0 c.1 c.2) ∧
    ((offsets sampleOptions.hutRadius).length : Int) = (2 * sampleOptions.hutRadius + 1) ^ 2 ∧
    (offsets sampleOptions.hutRadius).Nodup ∧
    (∀ rX rZ, (rX, rZ) ∈ offsets sampleOptions.hutRadius ↔
      (-sampleOptions.hutRadius - 1 ≤ rX ∧ rX < sampleOptions.hutRadius) ∧
      (-sampleOptions.hutRadius - 1 ≤ rZ ∧ rZ < sampleOptions.hutRadius)) ∧
    ((intRange (-sampleOptions.hutRadius - 1) sampleOptions.hutRadius).length : Int) =
      2 * sampleOptions.hutRadius + 1) ∧
    sampleOptions.hutRadius = 4 ∧ (offsets 4).length = 81 :=
  ⟨offsets_window sampleEngine sampleOptions ⟨0, []⟩ 0 (by decide), by decide, by decide⟩

/-- C5 as stated fails: with `hutRadius = 0` the loops visit the single offset `(-1, -1)`,
not `(2*(0+1))^2 = 4` offsets; with the default `hutRadius = 4` they visit 81, not 100. -/
theorem offsets_count_not_square_of_even :
    offsets 0 = [(-1, -1)] ∧ (offsets 0).length ≠ (2 * (0 + 1)) ^ 2 ∧
    (offsets 4).length = 81 ∧ (offsets 4).length ≠ (2 * (4 + 1)) ^ 2 := by
  decide

/-! ## Monuments -/

theorem potentialMonuments_eq_spec (e : Engine) (baseSeed d : Int) :
    (potentialMonuments e baseSeed d).monuments = specMonuments e baseSeed d ∧
    (potentialMonuments e baseSeed d).numMonuments = (specMonuments e baseSeed d).length := by
  by_cases h1 : (e.getOceanMonumentChunk baseSeed 0 0).x ≥ 23 - d ∧
      (e.getOceanMonumentChunk baseSeed 0 0).z ≥ 23 - d <;>
  by_cases h2 : (e.getOceanMonumentChunk baseSeed 1 0).x ≤ d ∧
      (e.getOceanMonumentChunk baseSeed 1 0).z ≥ 23 - d <;>
  by_cases h3 : (e.getOceanMonumentChunk baseSeed 0 1).x ≥ 23 - d ∧
      (e.getOceanMonumentChunk baseSeed 0 1).z ≤ d <;>
  by_cases h4 : (e.getOceanMonumentChunk baseSeed 1 1).x ≤ d ∧
      (e.getOceanMonumentChunk baseSeed 1 1).z ≤ d <;>
  (simp only [potentialMonuments, specMonuments, specQuadrantKept, specBlockPos,
    Monuments.push, List.filter_cons, List.filter_nil, eq_self_iff_true, one_ne_zero,
    if_true, if_false, h1, h2, h3, h4, and_self, decide_True, decide_False, List.map_cons,
    List.map_nil, List.nil_append, List.cons_append, List.length_cons, List.length_nil,
    mul_zero, mul_one, add_zero, zero_add, and_true, true_and]
   try simp)

/-- C6 (monument quadrant filter).  potentialMonuments keeps the candidate `(i, j)` exactly
when its chunk position passes the quadrant test (`x ≥ 23-d` for `i = 0`, `x ≤ d` for
`i = 1`, the same for `z` and `j`), stores the kept candidates in the order (0,0), (1,0),
(0,1), (1,1) as block positions `((x + 32*i)*16 + 8, (z + 32*j)*16 + 8)`, and numMonuments
is their number, at most 4.  For `d = 0` the chunk (23,23) is kept as the first
quadrant candidate and the chunk (22,23) is not. -/
theorem potentialMonuments_spec (e : Engine) (baseSeed d : Int) :
    (potentialMonuments e baseSeed d).monuments = specMonuments e baseSeed d ∧
    (potentialMonuments e baseSeed d).numMonuments = (specMonuments e baseSeed d).length ∧
    (potentialMonuments e baseSeed d).numMonuments ≤ 4 ∧
    potentialMonuments (chunkEngine ⟨23, 23⟩) baseSeed 0 = ⟨1, [⟨376, 376⟩]⟩ ∧
    potentialMonuments (chunkEngine ⟨22, 23⟩) baseSeed 0 = ⟨0, []⟩ ∧
    (∀ p : Pos, (specQuadrantKept d 0 0 p = true ↔ (p.x ≥ 23 - d ∧ p.z ≥ 23 - d)) ∧
      (specQuadrantKept d 1 0 p = true ↔ (p.x ≤ d ∧ p.z ≥ 23 - d)) ∧
      (specQuadrantKept d 0 1 p = true ↔ (p.x ≥ 23 - d ∧ p.z ≤ d)) ∧
      (specQuadrantKept d 1 1 p = true ↔ (p.x ≤ d ∧ p.z ≤ d))) := by
  have key := potentialMonuments_eq_spec e baseSeed d
  refine ⟨key.1, key.2, ?_, ?_, ?_, fun p => by simp [specQuadrantKept]⟩
  · rw [key.2]
    unfold specMonuments
    rw [List.length_map]
    exact (List.length_filter_le _ _).trans (by simp)
  · simp [potentialMonuments, chunkEngine, Monuments.push]
  · simp [potentialMonuments, chunkEngine, Monuments.push]

/-- C7 (monument pre-rejection, as the code has it).  When `monumentDistance = d` is not
zero and the four monument chunk positions of a base seed all fail their quadrant test
(upper = 23 - d, lower = d), the worker does nothing for that base seed beyond computing
the monument candidates: no offset is translated, no cascade step runs and the engine is
not invoked. -/
theorem monument_prerejection (e : Engine) (opts : SearchOptions) (baseSeed : Int)
    (hd : opts.monumentDistance ≠ 0)
    (h00 : specQuadrantKept opts.monumentDistance 0 0
      (e.getOceanMonumentChunk baseSeed 0 0) = false)
    (h10 : specQuadrantKept opts.monumentDistance 1 0
      (e.getOceanMonumentChunk baseSeed 1 0) = false)
    (h01 : specQuadrantKept opts.monumentDistance 0 1
      (e.getOceanMonumentChunk baseSeed 0 1) = false)
    (h11 : specQuadrantKept opts.monumentDistance 1 1
      (e.getOceanMonumentChunk baseSeed 1 1) = false) :
    searchCandidate e opts baseSeed =
      [Event.potentialMonuments baseSeed opts.monumentDistance] := by
  have hnum : (potentialMonuments e baseSeed opts.monumentDistance).numMonuments = 0 := by
    rw [(potentialMonuments_eq_spec e baseSeed opts.monumentDistance).2]
    simp [specMonuments, List.filter_cons, h00, h10, h01, h11]
  simp [searchCandidate, hd, hnum]

/-- Witness for C7: `monumentDistance = 1` and all four chunks at (10, 10). -/
theorem monument_prerejection_witness :
    searchCandidate sampleEngine (monumentOptions 1) 0 =
      [Event.potentialMonuments 0 (monumentOptions 1).monumentDistance] :=
  monument_prerejection sampleEngine (monumentOptions 1) 0 (by decide) (by decide) (by decide)
    (by decide) (by decide)

/-- C7 as stated fails: with `monumentDistance = 0` the monument check is switched off.
All four chunks (10, 10) fail the quadrant tests for upper = 23, lower = 0, and the
worker still translates the offsets and invokes the engine for the base seed. -/
theorem monument_check_off_at_zero :
    (monumentOptions 0).monumentDistance = 0 ∧
    specQuadrantKept 0 0 0 (sampleEngine.getOceanMonumentChunk 0 0 0) = false ∧
    specQuadrantKept 0 1 0 (sampleEngine.getOceanMonumentChunk 0 1 0) = false ∧
    specQuadrantKept 0 0 1 (sampleEngine.getOceanMonumentChunk 0 0 1) = false ∧
    specQuadrantKept 0 1 1 (sampleEngine.getOceanMonumentChunk 0 1 1) = false ∧
    (searchCandidate sampleEngine (monumentOptions 0) 0).take 3 =
      [Event.moveTemple 0 (-5) (-5), Event.setWorldSeed (saltedSeed 0 0x53),
       Event.mcNextInt (saltedSeed 0 0x53) (-8) (-8)] := by
  decide

/-! ## Mansions -/

theorem hasMansionsLoop_eq (e : Engine) (g : LayerStack) (seed minCount : Int) :
    ∀ (cells : List (Int × Int)) (count : Int), count < minCount →
      hasMansionsLoop e g seed minCount cells count =
        if minCount ≤ count + ((cells.filter (fun c =>
            decide (e.isViableMansionPos g (e.getMansionPos seed c.1 c.2).x
              (e.getMansionPos seed c.1 c.2).z ≠ 0))).length : Int)
        then 1 else 0 := by
  intro cells
  induction cells with
  | nil =>
    intro count hc
    simp [hasMansionsLoop]
    omega
  | cons c rest ih =>
    intro count hc
    by_cases hv : e.isViableMansionPos g (e.getMansionPos seed c.1 c.2).x
        (e.getMansionPos seed c.1 c.2).z ≠ 0
    · simp only [hasMansionsLoop]
      rw [if_pos hv, List.filter_cons_of_pos (by simpa using hv), List.length_cons]
      by_cases hm : count + 1 ≥ minCount
      · rw [if_pos hm, if_pos]
        push_cast
        omega
      · rw [if_neg hm, ih (count + 1) (by omega)]
        push_cast
        rw [add_assoc, add_comm (1 : Int)]
    · simp only [hasMansionsLoop]
      rw [if_neg hv, List.filter_cons_of_neg (by simpa using hv)]
      exact ih count hc

theorem gridCells_toFinset (lo hi : Int) :
    (gridCells lo hi).toFinset = Finset.Ico lo hi ×ˢ Finset.Ico lo hi := by
  ext c
  simp [mem_gridCells]

/-- C8 (mansion verifier).  For every seed, radius `r` and `minCount ≥ 1`, hasMansions
returns 1 when the number of region cells `(rX, rZ)` with `-r ≤ rX < r` and `-r ≤ rZ < r`
whose mansion position is viable is at least `minCount`, and 0 otherwise. -/
theorem hasMansions_iff_count (e : Engine) (g : LayerStack) (seed radius minCount : Int)
    (hmin : 1 ≤ minCount) :
    hasMansions e g seed radius minCount =
      if minCount ≤ (((Finset.Ico (-radius) radius ×ˢ Finset.Ico (-radius) radius).filter
          (fun c => e.isViableMansionPos g (e.getMansionPos seed c.1 c.2).x
            (e.getMansionPos seed c.1 c.2).z ≠ 0)).card : Int)
      then 1 else 0 := by
  have hcard : ((Finset.Ico (-radius) radius ×ˢ Finset.Ico (-radius) radius).filter
      (fun c => e.isViableMansionPos g (e.getMansionPos seed c.1 c.2).x
        (e.getMansionPos seed c.1 c.2).z ≠ 0)).card =
      ((gridCells (-radius) radius).filter (fun c =>
        decide (e.isViableMansionPos g (e.getMansionPos seed c.1 c.2).x
          (e.getMansionPos seed c.1 c.2).z ≠ 0))).length := by
    rw [← List.toFinset_card_of_nodup ((nodup_gridCells _ _).filter _)]
    congr 1
    ext c
    simp [mem_gridCells]
  unfold hasMansions
  rw [hasMansionsLoop_eq e g seed minCount _ 0 (by omega), hcard, zero_add]

/-- Witness for C8: nothing is viable in the sample library, so one mansion within
radius 2 is not found. -/
theorem hasMansions_iff_count_witness :
    hasMansions sampleEngine 0 0 2 1 =
      if (1 : Int) ≤ (((Finset.Ico (-2 : Int) 2 ×ˢ Finset.Ico (-2 : Int) 2).filter
          (fun c => sampleEngine.isViableMansionPos 0 (sampleEngine.getMansionPos 0 c.1 c.2).x
            (sampleEngine.getMansionPos 0 c.1 c.2).z ≠ 0)).card : Int)
      then 1 else 0 :=
  hasMansions_iff_count sampleEngine 0 0 2 1 (by decide)

/-! ## initSearchConfig -/

/-- C10, the failing input: the included list `[-1]` passes the assertion
`includedBiomes[i] < 256`, so construction succeeds and stores to `lookup[-1]`, outside
the table. -/
theorem initSearchConfig_accepts_negative_id :
    (initSearchConfig "negative" 0 [-1] []).map (fun r => r.2) = some [-1] ∧
    (initSearchConfig "negative" 0 [] [-1]).map (fun r => r.2) = some [-1] ∧
    (initSearchConfig "negative" 0 [-1] []).map (fun r => r.1.lookup (-1)) = some 1 ∧
    (initSearchConfig "large" 0 [256] []).isNone = true := by
  decide

/-! ## Soundness of the output -/

theorem auxChecks_print (e : Engine) (opts : SearchOptions) (monuments : Monuments)
    (rX rZ seed s : Int) (hs : Event.print s ∈ auxChecks e opts monuments rX rZ seed) :
    s = seed ∧
    (opts.monumentDistance ≠ 0 → verifyMonuments e seed monuments rX rZ ≠ 0) ∧
    (opts.woodlandMansions ≠ 0 →
      hasMansions e seed seed opts.mansionRadius opts.woodlandMansions ≠ 0) ∧
    (∀ config, opts.spawnBiomes = some config →
      hasSpawnBiome e seed (e.getSpawn seed seed) config ≠ 0) := by
  unfold auxChecks at hs
  by_cases h1 : opts.monumentDistance ≠ 0 ∧ verifyMonuments e seed monuments rX rZ = 0
  · rw [if_pos h1] at hs
    split_ifs at hs <;> simp at hs
  · rw [if_neg h1] at hs
    by_cases h2 : opts.woodlandMansions ≠ 0 ∧
        hasMansions e seed seed opts.mansionRadius opts.woodlandMansions = 0
    · simp only [if_pos h2] at hs
      split_ifs at hs <;> simp at hs
    · simp only [if_neg h2] at hs
      have hm : opts.monumentDistance ≠ 0 → verifyMonuments e seed monuments rX rZ ≠ 0 :=
        fun hd hv => h1 ⟨hd, hv⟩
      have hw : opts.woodlandMansions ≠ 0 →
          hasMansions e seed seed opts.mansionRadius opts.woodlandMansions ≠ 0 :=
        fun hd hv => h2 ⟨hd, hv⟩
      cases hsp : opts.spawnBiomes with
      | none =>
        rw [hsp] at hs
        have : s = seed := by
          split_ifs at hs <;> simpa using hs
        exact ⟨this, hm, hw, fun config hc => by cases hc⟩
      | some config =>
        rw [hsp] at hs
        by_cases h3 : hasSpawnBiome e seed (e.getSpawn seed seed) config = 0
        · simp only [if_pos h3] at hs
          split_ifs at hs <;> simp at hs
        · simp only [if_neg h3] at hs
          have : s = seed := by
            split_ifs at hs <;> simpa using hs
          refine ⟨this, hm, hw, fun config' hc => ?_⟩
          cases hc
          exact h3

theorem hutChecks_no_print (e : Engine) (seed s : Int) :
    ∀ qhpos : List Pos, Event.print s ∉ (hutChecks e seed qhpos).2 := by
  intro qhpos
  induction qhpos with
  | nil => simp [hutChecks]
  | cons p ps ih =>
    unfold hutChecks
    split_ifs
    · simp
    · simpa using ih

theorem hutChecks_true (e : Engine) (seed : Int) :
    ∀ qhpos : List Pos, (hutChecks e seed qhpos).1 = true →
      ∀ p ∈ qhpos, getBiomeAt e seed p = e.swampland := by
  intro qhpos
  induction qhpos with
  | nil => intro _ p hp; simp at hp
  | cons q ps ih =>
    intro h p hp
    unfold hutChecks at h
    by_cases hq : getBiomeAt e seed q ≠ e.swampland
    · rw [if_pos hq] at h
      simp at h
    · rw [if_neg hq] at h
      rcases List.mem_cons.mp hp with rfl | hp
      · exact not_not.mp hq
      · exact ih h p hp

theorem cascade_print (e : Engine) (opts : SearchOptions) (monuments : Monuments)
    (rX rZ : Int) (qhpos : List Pos) (seed : Int) (hutHits : Nat) (s : Int)
    (hs : Event.print s ∈ (cascade e opts monuments rX rZ qhpos seed hutHits).2) :
    s = seed ∧
    e.mcNextInt seed (2 * rX + 1 + 1) (2 * rZ + 1 + 1) 6 = 5 ∧
    e.genAreaFilter seed (2 * rX + 1 + 1) (2 * rZ + 1 + 1) = e.swampland ∧
    (∀ p ∈ qhpos, getBiomeAt e seed p = e.swampland) ∧
    Event.print s ∈ auxChecks e opts monuments rX rZ seed := by
  unfold cascade at hs
  by_cases h1 : e.mcNextInt seed (2 * rX + 1 + 1) (2 * rZ + 1 + 1) 6 ≠ 5
  · simp [h1] at hs
  · by_cases h2 : e.genAreaFilter seed (2 * rX + 1 + 1) (2 * rZ + 1 + 1) ≠ e.swampland
    · simp [h1, h2] at hs
    · by_cases h3 : (hutChecks e seed qhpos).1 = false
      · simp only [if_neg h1, if_neg h2, if_pos h3] at hs
        simp [hutChecks_no_print] at hs
      · simp only [if_neg h1, if_neg h2, if_neg h3] at hs
        have h3' : (hutChecks e seed qhpos).1 = true := by simpa using h3
        simp [hutChecks_no_print] at hs
        have ha := hs
        refine ⟨?_, not_not.mp h1, not_not.mp h2, hutChecks_true e seed qhpos h3', ha⟩
        exact (auxChecks_print e opts monuments rX rZ seed s ha).1

theorem saltBody_print (e : Engine) (opts : SearchOptions) (monuments : Monuments)
    (base rX rZ : Int) (qhpos : List Pos) (j hutHits : Nat) (s : Int)
    (hs : Event.print s ∈ (saltBody e opts monuments base rX rZ qhpos j hutHits).2.2) :
    Event.print s ∈
      (cascade e opts monuments rX rZ qhpos (saltedSeed base j) hutHits).2 := by
  unfold saltBody at hs
  simp only [swampCountEvents] at hs
  split_ifs at hs <;> simp at hs <;> exact hs

theorem sweepLoop_print (e : Engine) (opts : SearchOptions) (monuments : Monuments)
    (base rX rZ : Int) (qhpos : List Pos) (s : Int) :
    ∀ (n j hutHits : Nat),
      Event.print s ∈ sweepLoop e opts monuments base rX rZ qhpos n j hutHits →
      ∃ j' hutHits', j ≤ j' ∧ j' < j + n ∧
        Event.print s ∈ (saltBody e opts monuments base rX rZ qhpos j' hutHits').2.2 := by
  intro n
  induction n with
  | zero => intro j hutHits hs; simp [sweepLoop] at hs
  | succ n ih =>
    intro j hutHits hs
    unfold sweepLoop at hs
    rcases hb : saltBody e opts monuments base rX rZ qhpos j hutHits with ⟨flow, hh, t⟩
    rw [hb] at hs
    cases flow with
    | stop =>
      simp only at hs
      exact ⟨j, hutHits, le_refl _, by omega, by rw [hb]; exact hs⟩
    | next =>
      simp only [List.mem_append] at hs
      rcases hs with hs | hs
      · exact ⟨j, hutHits, le_refl _, by omega, by rw [hb]; exact hs⟩
      · obtain ⟨j', h', h1, h2, h3⟩ := ih (j + 1) hh hs
        exact ⟨j', h', by omega, by omega, h3⟩

theorem probeLoop_no_print (e : Engine) (base x z s : Int) :
    ∀ js : List Nat, Event.print s ∉ (probeLoop e base x z js).2 := by
  intro js
  induction js with
  | nil => simp [probeLoop]
  | cons j js ih =>
    unfold probeLoop
    dsimp only
    split_ifs
    · simp
    · simpa using ih

theorem searchOffset_print (e : Engine) (opts : SearchOptions) (monuments : Monuments)
    (baseSeed rX rZ s : Int)
    (hs : Event.print s ∈ searchOffset e opts monuments baseSeed rX rZ) :
    Event.print s ∈ sweepLoop e opts monuments (e.moveTemple baseSeed rX rZ) rX rZ
      (quadHutPos e (e.moveTemple baseSeed rX rZ) rX rZ) 0x10000 0 0 := by
  unfold searchOffset at hs
  dsimp only at hs
  split_ifs at hs
  · simp [probeLoop_no_print] at hs
  · simpa [probeLoop_no_print] using hs

theorem searchCandidate_print (e : Engine) (opts : SearchOptions) (baseSeed s : Int)
    (hs : Event.print s ∈ searchCandidate e opts baseSeed) :
    ∃ rX rZ, (rX, rZ) ∈ offsets opts.hutRadius ∧
      Event.print s ∈ searchOffset e opts
        (if opts.monumentDistance ≠ 0 then potentialMonuments e baseSeed opts.monumentDistance
          else ⟨0, []⟩) baseSeed rX rZ := by
  unfold searchCandidate at hs
  by_cases hd : opts.monumentDistance ≠ 0
  · rw [if_pos hd] at hs
    rw [if_pos hd]
    dsimp only at hs
    split_ifs at hs
    · simp at hs
    · have hmem : Event.print s ∈
          offsetLoops e opts (potentialMonuments e baseSeed opts.monumentDistance) baseSeed := by
        simpa using hs
      rw [offsetLoops, List.mem_flatMap] at hmem
      obtain ⟨c, hc, hmem⟩ := hmem
      exact ⟨c.1, c.2, hc, hmem⟩
  · rw [if_neg hd] at hs
    rw [if_neg hd]
    have hmem : Event.print s ∈ offsetLoops e opts ⟨0, []⟩ baseSeed := by
      simpa using hs
    rw [offsetLoops, List.mem_flatMap] at hmem
    obtain ⟨c, hc, hmem⟩ := hmem
    exact ⟨c.1, c.2, hc, hmem⟩

/-- C1 (soundness of the output of searchQuadHutsThread).  Every seed the worker writes is
written by the salt loop body of some candidate index `i` of the worker, some offset
`(rX, rZ)` of the offset loops and some salt `j < 0x10000`; it is the seed
`base + (j << 48)` with `base = moveTemple(candidate, rX, rZ)`, and for that seed the draw
at cell `(areaX+1, areaZ+1)` is 5, the coarse biome at that cell is swampland, the four
hut positions are swampland at the last layer, and each enabled auxiliary check (monument,
mansion, spawn biome) accepts; here `areaX = 2*rX+1` and `areaZ = 2*rZ+1`. -/
theorem searchQuadHutsThread_sound (e : Engine) (opts : SearchOptions)
    (qhcandidates : List Int) (startIndex : Nat) (fileOk : Bool) (s : Int)
    (hs : Event.print s ∈ searchQuadHutsThread e opts qhcandidates startIndex fileOk) :
    ∃ (i : Nat) (rX rZ : Int) (j hutHits : Nat),
      i ∈ workerIndices qhcandidates opts.endSeed opts.threads.toNat startIndex ∧
      (rX, rZ) ∈ offsets opts.hutRadius ∧ j < 0x10000 ∧
      Event.print s ∈ (saltBody e opts
        (if opts.monumentDistance ≠ 0 then
          potentialMonuments e (qhcandidates.getD i 0) opts.monumentDistance else ⟨0, []⟩)
        (e.moveTemple (qhcandidates.getD i 0) rX rZ) rX rZ
        (quadHutPos e (e.moveTemple (qhcandidates.getD i 0) rX rZ) rX rZ) j hutHits).2.2 ∧
      s = saltedSeed (e.moveTemple (qhcandidates.getD i 0) rX rZ) j ∧
      e.mcNextInt s (2 * rX + 1 + 1) (2 * rZ + 1 + 1) 6 = 5 ∧
      e.genAreaFilter s (2 * rX + 1 + 1) (2 * rZ + 1 + 1) = e.swampland ∧
      (∀ p ∈ quadHutPos e (e.moveTemple (qhcandidates.getD i 0) rX rZ) rX rZ,
        getBiomeAt e s p = e.swampland) ∧
      (opts.monumentDistance ≠ 0 →
        verifyMonuments e s
          (potentialMonuments e (qhcandidates.getD i 0) opts.monumentDistance) rX rZ ≠ 0) ∧
      (opts.woodlandMansions ≠ 0 →
        hasMansions e s s opts.mansionRadius opts.woodlandMansions ≠ 0) ∧
      (∀ config, opts.spawnBiomes = some config →
        hasSpawnBiome e s (e.getSpawn s s) config ≠ 0) := by
  unfold searchQuadHutsThread at hs
  split_ifs at hs
  · simp at hs
  · rw [List.mem_flatMap] at hs
    obtain ⟨i, hi, hcand⟩ := hs
    obtain ⟨rX, rZ, hoff, hso⟩ := searchCandidate_print e opts _ s hcand
    have hsw := searchOffset_print e opts _ _ rX rZ s hso
    obtain ⟨j, hutHits, -, hj, hbody⟩ := sweepLoop_print e opts _ _ rX rZ _ s _ _ _ hsw
    have hcas := saltBody_print e opts _ _ rX rZ _ j hutHits s hbody
    obtain ⟨hseed, hdraw, hfilter, hhuts, haux⟩ := cascade_print e opts _ rX rZ _ _ hutHits s hcas
    obtain ⟨-, hmon, hman, hspawn⟩ := auxChecks_print e opts _ rX rZ _ s haux
    refine ⟨i, rX, rZ, j, hutHits, hi, hoff, by omega, hbody, hseed, ?_, ?_, ?_, ?_, ?_, ?_⟩
    · rw [hseed]; exact hdraw
    · rw [hseed]; exact hfilter
    · rw [hseed]; exact hhuts
    · intro hd
      have := hmon hd
      rw [if_pos hd] at this
      rw [hseed]; exact this
    · rw [hseed]; exact hman
    · rw [hseed]; exact hspawn

/-- Witness for C1: one candidate, `hutRadius = 0`, every check passing; the seed 0 is
written at salt 0 of the offset (-1, -1). -/
theorem searchQuadHutsThread_sound_witness :
    Event.print 0 ∈ searchQuadHutsThread acceptEngine smallOptions [0] 0 true ∧
    ∃ (i : Nat) (rX rZ : Int) (j hutHits : Nat),
      i ∈ workerIndices [0] smallOptions.endSeed smallOptions.threads.toNat 0 ∧
      (rX, rZ) ∈ offsets smallOptions.hutRadius ∧ j < 0x10000 ∧
      Event.print 0 ∈ (saltBody acceptEngine smallOptions
        (if smallOptions.monumentDistance ≠ 0 then
          potentialMonuments acceptEngine (([0] : List Int).getD i 0)
            smallOptions.monumentDistance else ⟨0, []⟩)
        (acceptEngine.moveTemple (([0] : List Int).getD i 0) rX rZ) rX rZ
        (quadHutPos acceptEngine (acceptEngine.moveTemple (([0] : List Int).getD i 0) rX rZ)
          rX rZ) j hutHits).2.2 ∧
      0 = saltedSeed (acceptEngine.moveTemple (([0] : List Int).getD i 0) rX rZ) j ∧
      acceptEngine.mcNextInt 0 (2 * rX + 1 + 1) (2 * rZ + 1 + 1) 6 = 5 ∧
      acceptEngine.genAreaFilter 0 (2 * rX + 1 + 1) (2 * rZ + 1 + 1) = acceptEngine.swampland ∧
      (∀ p ∈ quadHutPos acceptEngine
          (acceptEngine.moveTemple (([0] : List Int).getD i 0) rX rZ) rX rZ,
        getBiomeAt acceptEngine 0 p = acceptEngine.swampland) ∧
      (smallOptions.monumentDistance ≠ 0 →
        verifyMonuments acceptEngine 0
          (potentialMonuments acceptEngine (([0] : List Int).getD i 0)
            smallOptions.monumentDistance) rX rZ ≠ 0) ∧
      (smallOptions.woodlandMansions ≠ 0 →
        hasMansions acceptEngine 0 0 smallOptions.mansionRadius
          smallOptions.woodlandMansions ≠ 0) ∧
      (∀ config, smallOptions.spawnBiomes = some config →
        hasSpawnBiome acceptEngine 0 (acceptEngine.getSpawn 0 0) config ≠ 0) :=
  ⟨by decide, searchQuadHutsThread_sound acceptEngine smallOptions [0] 0 true 0 (by decide)⟩

/-! ## The periodic early abort -/

theorem saltedSeed_injective (base : Int) (j k : Nat) (hj : j < 0x10000) (hk : k < 0x10000)
    (h : saltedSeed base j = saltedSeed base k) : j = k := by
  unfold saltedSeed wrapLong at h
  omega

theorem hutChecks_fst (e : Engine) (seed : Int) :
    ∀ qhpos : List Pos,
      (hutChecks e seed qhpos).1 = qhpos.all (fun p => decide (getBiomeAt e seed p = e.swampland)) := by
  intro qhpos
  induction qhpos with
  | nil => simp [hutChecks]
  | cons p ps ih =>
    unfold hutChecks
    by_cases hp : getBiomeAt e seed p ≠ e.swampland
    · rw [if_pos hp]
      simp [hp]
    · rw [if_neg hp]
      have hp' : getBiomeAt e seed p = e.swampland := not_not.mp hp
      simp [ih, hp']

theorem cascade_snd_indep (e : Engine) (opts : SearchOptions) (monuments : Monuments)
    (rX rZ : Int) (qhpos : List Pos) (seed : Int) (hutHits : Nat) :
    (cascade e opts monuments rX rZ qhpos seed hutHits).2 =
      (cascade e opts monuments rX rZ qhpos seed 0).2 := by
  unfold cascade
  dsimp only
  split_ifs <;> rfl

theorem cascade_fst (e : Engine) (opts : SearchOptions) (monuments : Monuments)
    (rX rZ : Int) (qhpos : List Pos) (seed : Int) (hutHits : Nat) :
    (cascade e opts monuments rX rZ qhpos seed hutHits).1 =
      hutHits + (if specClusterPass e rX rZ qhpos seed = true then 1 else 0) := by
  unfold cascade specClusterPass
  dsimp only
  rw [← hutChecks_fst]
  by_cases h1 : e.mcNextInt seed (2 * rX + 1 + 1) (2 * rZ + 1 + 1) 6 ≠ 5
  · simp [h1]
  · by_cases h2 : e.genAreaFilter seed (2 * rX + 1 + 1) (2 * rZ + 1 + 1) ≠ e.swampland
    · simp [h1, h2]
    · by_cases h3 : (hutChecks e seed qhpos).1 = false
      · rw [if_neg h1, if_neg h2, if_pos h3]
        simp [not_not.mp h1, not_not.mp h2, h3]
      · rw [if_neg h1, if_neg h2, if_neg h3]
        have h3' : (hutChecks e seed qhpos).1 = true := by simpa using h3
        simp [not_not.mp h1, not_not.mp h2, h3']

theorem swampCount_eq_spec (e : Engine) (seed rX rZ : Int) :
    swampCount e seed (2 * rX + 1) (2 * rZ + 1) = specSwampCount e seed rX rZ := by
  unfold swampCount specSwampCount specAbortCells
  simp only [List.filter_cons, List.filter_nil]
  split_ifs <;> simp_all

theorem land_fff_iff (j : Nat) : j &&& 0xfff = 0xfff ↔ j % 4096 = 4095 := by
  have h := Nat.and_pow_two_sub_one_eq_mod j 12
  norm_num at h
  rw [h]

theorem required_eq_spec (j : Nat) (hj : j % 4096 = 4095) :
    (if j > 0x1000 then 2 else 1) = specRequired j := by
  unfold specRequired
  by_cases h : j = 0xfff
  · subst h; rfl
  · have : j > 0x1000 := by
      have h' : j ≠ 4095 := h
      show 4096 < j
      omega
    rw [if_pos this, if_neg h]

theorem noEarlierPass_succ (e : Engine) (base rX rZ : Int) (qhpos : List Pos) (j : Nat) :
    (List.range (j + 1)).all (fun k => !specClusterPass e rX rZ qhpos (saltedSeed base k)) =
      ((List.range j).all (fun k => !specClusterPass e rX rZ qhpos (saltedSeed base k)) &&
        !specClusterPass e rX rZ qhpos (saltedSeed base j)) := by
  rw [List.range_succ, List.all_append]
  simp

theorem saltBody_eq_spec (e : Engine) (opts : SearchOptions) (monuments : Monuments)
    (base rX rZ : Int) (qhpos : List Pos) (j hutHits : Nat)
    (hinv : hutHits = 0 ↔
      (List.range j).all (fun k => !specClusterPass e rX rZ qhpos (saltedSeed base k)) = true) :
    saltBody e opts monuments base rX rZ qhpos j hutHits =
      if specAbortFails e base rX rZ qhpos j = true then
        (Flow.stop, hutHits, specAbortTrace base rX rZ j)
      else
        (Flow.next,
          hutHits + (if specClusterPass e rX rZ qhpos (saltedSeed base j) = true then 1 else 0),
          specSaltTrace e opts monuments base rX rZ qhpos j) := by
  have hdue : (hutHits = 0 ∧ j &&& 0xfff = 0xfff) ↔ specAbortDue e base rX rZ qhpos j = true := by
    unfold specAbortDue
    rw [land_fff_iff, hinv]
    simp [and_comm]
  unfold saltBody
  dsimp only
  by_cases hd : specAbortDue e base rX rZ qhpos j = true
  · have hmod : j % 4096 = 4095 := by
      unfold specAbortDue at hd
      simp at hd
      exact hd.1
    rw [if_pos (hdue.mpr hd), required_eq_spec j hmod, swampCount_eq_spec]
    by_cases hf : specSwampCount e (saltedSeed base j) rX rZ < specRequired j
    · have hfail : specAbortFails e base rX rZ qhpos j = true := by
        simp [specAbortFails, hd, hf]
      rw [if_pos hf, if_pos hfail]
      rfl
    · have hfail : ¬ specAbortFails e base rX rZ qhpos j = true := by
        simp [specAbortFails, hd, hf]
      rw [if_neg hf, if_neg hfail, cascade_fst, cascade_snd_indep]
      simp [specSaltTrace, hd]
  · have hfail : ¬ specAbortFails e base rX rZ qhpos j = true := by
      simp [specAbortFails, hd]
    rw [if_neg (fun h => hd (hdue.mp h)), if_neg hfail, cascade_fst, cascade_snd_indep]
    simp [specSaltTrace, hd]

theorem hutHits_inv_step (e : Engine) (base rX rZ : Int) (qhpos : List Pos) (j hutHits : Nat)
    (hinv : hutHits = 0 ↔
      (List.range j).all (fun k => !specClusterPass e rX rZ qhpos (saltedSeed base k)) = true) :
    hutHits + (if specClusterPass e rX rZ qhpos (saltedSeed base j) = true then 1 else 0) = 0 ↔
      (List.range (j + 1)).all
        (fun k => !specClusterPass e rX rZ qhpos (saltedSeed base k)) = true := by
  rw [noEarlierPass_succ, Bool.and_eq_true, ← hinv]
  by_cases hp : specClusterPass e rX rZ qhpos (saltedSeed base j) = true
  · simp [hp]
  · simp [hp]

theorem sweepLoop_no_abort (e : Engine) (opts : SearchOptions) (monuments : Monuments)
    (base rX rZ : Int) (qhpos : List Pos) :
    ∀ (n j hutHits : Nat),
      (hutHits = 0 ↔
        (List.range j).all
          (fun k => !specClusterPass e rX rZ qhpos (saltedSeed base k)) = true) →
      (∀ k, j ≤ k → k < j + n → specAbortFails e base rX rZ qhpos k = false) →
      sweepLoop e opts monuments base rX rZ qhpos n j hutHits =
        (List.range' j n).flatMap (specSaltTrace e opts monuments base rX rZ qhpos) := by
  intro n
  induction n with
  | zero => intro j hutHits _ _; simp [sweepLoop]
  | succ n ih =>
    intro j hutHits hinv hok
    have hj : ¬ specAbortFails e base rX rZ qhpos j = true := by
      rw [hok j (le_refl _) (by omega)]; simp
    unfold sweepLoop
    rw [saltBody_eq_spec e opts monuments base rX rZ qhpos j hutHits hinv, if_neg hj]
    dsimp only
    rw [ih (j + 1) _ (hutHits_inv_step e base rX rZ qhpos j hutHits hinv)
      (fun k hk1 hk2 => hok k (by omega) (by omega))]
    rw [List.range'_succ, List.flatMap_cons]

theorem sweepLoop_abort (e : Engine) (opts : SearchOptions) (monuments : Monuments)
    (base rX rZ : Int) (qhpos : List Pos) (J : Nat) :
    ∀ (n j hutHits : Nat),
      (hutHits = 0 ↔
        (List.range j).all
          (fun k => !specClusterPass e rX rZ qhpos (saltedSeed base k)) = true) →
      j ≤ J → J < j + n →
      (∀ k, j ≤ k → k < J → specAbortFails e base rX rZ qhpos k = false) →
      specAbortFails e base rX rZ qhpos J = true →
      sweepLoop e opts monuments base rX rZ qhpos n j hutHits =
        (List.range' j (J - j)).flatMap (specSaltTrace e opts monuments base rX rZ qhpos) ++
          specAbortTrace base rX rZ J := by
  intro n
  induction n with
  | zero => intro j hutHits _ h1 h2; omega
  | succ n ih =>
    intro j hutHits hinv hle hlt hok hfail
    unfold sweepLoop
    rw [saltBody_eq_spec e opts monuments base rX rZ qhpos j hutHits hinv]
    rcases Nat.eq_or_lt_of_le hle with rfl | hjJ
    · rw [if_pos hfail]
      simp
    · have hj : ¬ specAbortFails e base rX rZ qhpos j = true := by
        rw [hok j (le_refl _) hjJ]; simp
      rw [if_neg hj]
      dsimp only
      rw [ih (j + 1) _ (hutHits_inv_step e base rX rZ qhpos j hutHits hinv) (by omega) (by omega)
        (fun k hk1 hk2 => hok k (by omega) hk2) hfail]
      have hsub : J - j = (J - (j + 1)) + 1 := by omega
      rw [hsub, List.range'_succ, List.flatMap_cons, List.append_assoc]

theorem hutChecks_sweepSeed (e : Engine) (seed : Int) :
    ∀ (qhpos : List Pos), ∀ ev ∈ (hutChecks e seed qhpos).2, ev.sweepSeed = some seed := by
  intro qhpos
  induction qhpos with
  | nil => simp [hutChecks]
  | cons p ps ih =>
    unfold hutChecks
    split_ifs
    · simp [Event.sweepSeed]
    · simpa [Event.sweepSeed] using ih

theorem auxChecks_sweepSeed (e : Engine) (opts : SearchOptions) (monuments : Monuments)
    (rX rZ seed : Int) :
    ∀ ev ∈ auxChecks e opts monuments rX rZ seed, ev.sweepSeed = some seed := by
  unfold auxChecks
  dsimp only
  cases opts.spawnBiomes <;> dsimp only <;> split_ifs <;> simp [Event.sweepSeed]

theorem cascade_sweepSeed (e : Engine) (opts : SearchOptions) (monuments : Monuments)
    (rX rZ : Int) (qhpos : List Pos) (seed : Int) (hutHits : Nat) :
    ∀ ev ∈ (cascade e opts monuments rX rZ qhpos seed hutHits).2, ev.sweepSeed = some seed := by
  have h1 := hutChecks_sweepSeed e seed qhpos
  have h2 := auxChecks_sweepSeed e opts monuments rX rZ seed
  unfold cascade
  dsimp only
  split_ifs <;> simp [Event.sweepSeed, List.forall_mem_append, or_imp, forall_and] <;>
    first
    | exact h1
    | exact ⟨h1, h2⟩

theorem specSaltTrace_sweepSeed (e : Engine) (opts : SearchOptions) (monuments : Monuments)
    (base rX rZ : Int) (qhpos : List Pos) (j : Nat) :
    ∀ ev ∈ specSaltTrace e opts monuments base rX rZ qhpos j,
      ev.sweepSeed = some (saltedSeed base j) := by
  have h1 := cascade_sweepSeed e opts monuments rX rZ qhpos (saltedSeed base j) 0
  unfold specSaltTrace
  split_ifs <;>
    simp [Event.sweepSeed, swampCountEvents, List.forall_mem_append, or_imp, forall_and] <;>
    exact h1

theorem specAbortTrace_not_cascadeStep (base rX rZ : Int) (j : Nat) :
    ∀ ev ∈ specAbortTrace base rX rZ j, ev.isCascadeStep rX rZ = false := by
  simp [specAbortTrace, swampCountEvents, Event.isCascadeStep]

theorem abort_trace_salts (e : Engine) (opts : SearchOptions) (monuments : Monuments)
    (base rX rZ : Int) (qhpos : List Pos) (J : Nat) (ev : Event)
    (hev : ev ∈ (List.range J).flatMap (specSaltTrace e opts monuments base rX rZ qhpos) ++
      specAbortTrace base rX rZ J)
    (hstep : ev.isCascadeStep rX rZ = true) (j : Nat) (hj1 : J ≤ j) (hj2 : j < 0x10000) :
    ev.sweepSeed ≠ some (saltedSeed base j) := by
  rcases List.mem_append.mp hev with h | h
  · obtain ⟨k, hk, hmem⟩ := List.mem_flatMap.mp h
    rw [specSaltTrace_sweepSeed e opts monuments base rX rZ qhpos k ev hmem]
    intro heq
    have hkJ : k < J := List.mem_range.mp hk
    have := saltedSeed_injective base k j (by omega) hj2 (Option.some.inj heq)
    omega
  · rw [specAbortTrace_not_cascadeStep base rX rZ J ev h] at hstep
    cases hstep

/-- C11 (periodic early-abort schedule).  In the salt sweep of one offset the early-abort
test is due at salt `j` exactly when `j mod 4096 = 4095` and no earlier salt has passed
the four-hut cluster test (auxiliary rejections do not matter); it counts the cells
`(areaX, areaZ+1)`, `(areaX+1, areaZ)`, `(areaX, areaZ)` whose draw is 5 and requires 1
at `j = 0xfff` and 2 at every later check.  Up to the first salt `J` at which the
requirement fails every salt is swept, the three draws being made exactly at the salts
where the test is due; at `J` only the seeding and the three draws are made and the
sweep ends, so no salt `≥ J` is evaluated or emitted.  If the requirement never fails
all `0x10000` salts are swept. -/
theorem early_abort_schedule (e : Engine) (opts : SearchOptions) (monuments : Monuments)
    (base rX rZ : Int) (qhpos : List Pos) :
    (∀ J, J < 0x10000 →
      (∀ j, j < J → specAbortFails e base rX rZ qhpos j = false) →
      specAbortFails e base rX rZ qhpos J = true →
      sweepLoop e opts monuments base rX rZ qhpos 0x10000 0 0 =
        (List.range J).flatMap (specSaltTrace e opts monuments base rX rZ qhpos) ++
          specAbortTrace base rX rZ J ∧
      ∀ j, J ≤ j → j < 0x10000 →
        Event.print (saltedSeed base j) ∉
          sweepLoop e opts monuments base rX rZ qhpos 0x10000 0 0 ∧
        ∀ ev ∈ sweepLoop e opts monuments base rX rZ qhpos 0x10000 0 0,
          ev.isCascadeStep rX rZ = true → ev.sweepSeed ≠ some (saltedSeed base j)) ∧
    ((∀ j, j < 0x10000 → specAbortFails e base rX rZ qhpos j = false) →
      sweepLoop e opts monuments base rX rZ qhpos 0x10000 0 0 =
        (List.range 0x10000).flatMap (specSaltTrace e opts monuments base rX rZ qhpos)) ∧
    (∀ j, specAbortDue e base rX rZ qhpos j = true ↔
      (j % 4096 = 4095 ∧
        ∀ k, k < j → specClusterPass e rX rZ qhpos (saltedSeed base k) = false)) ∧
    (∀ j, specAbortFails e base rX rZ qhpos j = true ↔
      (specAbortDue e base rX rZ qhpos j = true ∧
        specSwampCount e (saltedSeed base j) rX rZ < specRequired j)) ∧
    (∀ seed, specClusterPass e rX rZ qhpos seed = true ↔
      (e.mcNextInt seed (2 * rX + 1 + 1) (2 * rZ + 1 + 1) 6 = 5 ∧
        e.genAreaFilter seed (2 * rX + 1 + 1) (2 * rZ + 1 + 1) = e.swampland ∧
        ∀ p ∈ qhpos, getBiomeAt e seed p = e.swampland)) ∧
    specRequired 0xfff = 1 ∧ (∀ j, j ≠ 0xfff → specRequired j = 2) := by
  have hinv0 : (0 : Nat) = 0 ↔
      (List.range 0).all
        (fun k => !specClusterPass e rX rZ qhpos (saltedSeed base k)) = true := by simp
  refine ⟨?_, ?_, ?_, ?_, ?_, rfl, ?_⟩
  · intro J hJ hok hfail
    have heq := sweepLoop_abort e opts monuments base rX rZ qhpos J 0x10000 0 0 hinv0
      (Nat.zero_le _) (by omega) (fun k _ hk => hok k hk) hfail
    rw [Nat.sub_zero, ← List.range_eq_range'] at heq
    refine ⟨heq, fun j hj1 hj2 => ⟨?_, ?_⟩⟩
    · intro hmem
      rw [heq] at hmem
      exact abort_trace_salts e opts monuments base rX rZ qhpos J _ hmem rfl j hj1 hj2 rfl
    · intro ev hmem hstep
      rw [heq] at hmem
      exact abort_trace_salts e opts monuments base rX rZ qhpos J ev hmem hstep j hj1 hj2
  · intro hok
    have heq := sweepLoop_no_abort e opts monuments base rX rZ qhpos 0x10000 0 0 hinv0
      (fun k _ hk => hok k (by omega))
    rw [← List.range_eq_range'] at heq
    exact heq
  · intro j
    simp [specAbortDue]
  · intro j
    simp [specAbortFails]
  · intro seed
    simp [specClusterPass]
  · intro j hj
    simp [specRequired, hj]

/-- Witness for C11: no draw of the sample library is 5, so the first check, at salt
`0xfff`, fails and ends the sweep. -/
theorem early_abort_schedule_witness :
    sweepLoop sampleEngine smallOptions ⟨0, []⟩ 0 (-1) (-1) [] 0x10000 0 0 =
        (List.range 0xfff).flatMap (specSaltTrace sampleEngine smallOptions ⟨0, []⟩ 0 (-1) (-1) []) ++
          specAbortTrace 0 (-1) (-1) 0xfff ∧
      ∀ j, 0xfff ≤ j → j < 0x10000 →
        Event.print (saltedSeed 0 j) ∉
          sweepLoop sampleEngine smallOptions ⟨0, []⟩ 0 (-1) (-1) [] 0x10000 0 0 ∧
        ∀ ev ∈ sweepLoop sampleEngine smallOptions ⟨0, []⟩ 0 (-1) (-1) [] 0x10000 0 0,
          ev.isCascadeStep (-1) (-1) = true → ev.sweepSeed ≠ some (saltedSeed 0 j) :=
  (early_abort_schedule sampleEngine smallOptions ⟨0, []⟩ 0 (-1) (-1) []).1 0xfff (by decide)
    (fun j hj => by
      have hmod : ¬ j % 4096 = 4095 := by omega
      simp [specAbortFails, specAbortDue, hmod])
    (by simp [specAbortFails, specAbortDue, specClusterPass, sampleEngine, specSwampCount,
          specAbortCells, specRequired])

/-! ## The salt-plausibility pre-check -/

theorem probeLoop_fst (e : Engine) (base x z : Int) :
    ∀ js : List Nat, ((probeLoop e base x z js).1 = true ↔
      ∃ j ∈ js, e.mcNextInt (saltedSeed base j) x z 6 = 5) := by
  intro js
  induction js with
  | nil => simp [probeLoop]
  | cons j js ih =>
    unfold probeLoop
    dsimp only
    by_cases h : e.mcNextInt (saltedSeed base j) x z 6 = 5
    · rw [if_pos h]
      simp [h]
    · rw [if_neg h]
      simp [h, ih]

theorem probeLoop_snd_of_no_match (e : Engine) (base x z : Int) :
    ∀ js : List Nat, (∀ j ∈ js, e.mcNextInt (saltedSeed base j) x z 6 ≠ 5) →
      (probeLoop e base x z js).2 =
        js.flatMap (fun j =>
          [Event.setWorldSeed (saltedSeed base j), Event.mcNextInt (saltedSeed base j) x z]) := by
  intro js
  induction js with
  | nil => intro _; simp [probeLoop]
  | cons j js ih =>
    intro h
    unfold probeLoop
    dsimp only
    rw [if_neg (h j (List.mem_cons_self _ _))]
    simp [ih (fun k hk => h k (List.mem_cons_of_mem _ hk))]

theorem probeLoop_no_flush (e : Engine) (base x z : Int) :
    ∀ js : List Nat, Event.flush ∉ (probeLoop e base x z js).2 := by
  intro js
  induction js with
  | nil => simp [probeLoop]
  | cons j js ih =>
    unfold probeLoop
    dsimp only
    split_ifs
    · simp
    · simpa using ih

/-- C12 (salt-plausibility pre-check).  For every base seed and offset `(rX, rZ)`, with
`base = moveTemple(baseSeed, rX, rZ)`: the probe loop ends with a match exactly when some
salt `j` in `{0x53, ..., 0x57}` has draw 5 for the seed `base + (j << 48)` at cell
`(areaX+1, areaZ+1)`.  With a match the offset continues with the four hut positions, the
full sweep from salt 0 and the flush; without one the offset consists of the translation
and the ten probe calls only, so the sweep is not performed and no seed is written. -/
theorem precheck_gates_sweep (e : Engine) (opts : SearchOptions) (monuments : Monuments)
    (baseSeed rX rZ : Int) :
    ((probeLoop e (e.moveTemple baseSeed rX rZ) (2 * rX + 1 + 1) (2 * rZ + 1 + 1) probeSalts).1
        = true ↔
      ∃ j ∈ probeSalts,
        e.mcNextInt (saltedSeed (e.moveTemple baseSeed rX rZ) j)
          (2 * rX + 1 + 1) (2 * rZ + 1 + 1) 6 = 5) ∧
    probeSalts = [0x53, 0x54, 0x55, 0x56, 0x57] ∧
    ((∃ j ∈ probeSalts,
        e.mcNextInt (saltedSeed (e.moveTemple baseSeed rX rZ) j)
          (2 * rX + 1 + 1) (2 * rZ + 1 + 1) 6 = 5) →
      searchOffset e opts monuments baseSeed rX rZ =
        Event.moveTemple baseSeed rX rZ ::
          (probeLoop e (e.moveTemple baseSeed rX rZ) (2 * rX + 1 + 1) (2 * rZ + 1 + 1)
            probeSalts).2 ++
        [Event.getWitchHutPos (e.moveTemple baseSeed rX rZ) (0 + rX) (0 + rZ),
         Event.getWitchHutPos (e.moveTemple baseSeed rX rZ) (0 + rX) (1 + rZ),
         Event.getWitchHutPos (e.moveTemple baseSeed rX rZ) (1 + rX) (0 + rZ),
         Event.getWitchHutPos (e.moveTemple baseSeed rX rZ) (1 + rX) (1 + rZ)] ++
        sweepLoop e opts monuments (e.moveTemple baseSeed rX rZ) rX rZ
          (quadHutPos e (e.moveTemple baseSeed rX rZ) rX rZ) 0x10000 0 0 ++
        [Event.flush]) ∧
    ((¬ ∃ j ∈ probeSalts,
        e.mcNextInt (saltedSeed (e.moveTemple baseSeed rX rZ) j)
          (2 * rX + 1 + 1) (2 * rZ + 1 + 1) 6 = 5) →
      searchOffset e opts monuments baseSeed rX rZ =
        Event.moveTemple baseSeed rX rZ ::
          probeSalts.flatMap (fun j =>
            [Event.setWorldSeed (saltedSeed (e.moveTemple baseSeed rX rZ) j),
             Event.mcNextInt (saltedSeed (e.moveTemple baseSeed rX rZ) j)
               (2 * rX + 1 + 1) (2 * rZ + 1 + 1)]) ∧
      ∀ s, Event.print s ∉ searchOffset e opts monuments baseSeed rX rZ) ∧
    (Event.flush ∈ searchOffset e opts monuments baseSeed rX rZ ↔
      ∃ j ∈ probeSalts,
        e.mcNextInt (saltedSeed (e.moveTemple baseSeed rX rZ) j)
          (2 * rX + 1 + 1) (2 * rZ + 1 + 1) 6 = 5) := by
  have hfst := probeLoop_fst e (e.moveTemple baseSeed rX rZ) (2 * rX + 1 + 1) (2 * rZ + 1 + 1)
    probeSalts
  have hyes : (∃ j ∈ probeSalts,
        e.mcNextInt (saltedSeed (e.moveTemple baseSeed rX rZ) j)
          (2 * rX + 1 + 1) (2 * rZ + 1 + 1) 6 = 5) →
      searchOffset e opts monuments baseSeed rX rZ =
        Event.moveTemple baseSeed rX rZ ::
          (probeLoop e (e.moveTemple baseSeed rX rZ) (2 * rX + 1 + 1) (2 * rZ + 1 + 1)
            probeSalts).2 ++
        [Event.getWitchHutPos (e.moveTemple baseSeed rX rZ) (0 + rX) (0 + rZ),
         Event.getWitchHutPos (e.moveTemple baseSeed rX rZ) (0 + rX) (1 + rZ),
         Event.getWitchHutPos (e.moveTemple baseSeed rX rZ) (1 + rX) (0 + rZ),
         Event.getWitchHutPos (e.moveTemple baseSeed rX rZ) (1 + rX) (1 + rZ)] ++
        sweepLoop e opts monuments (e.moveTemple baseSeed rX rZ) rX rZ
          (quadHutPos e (e.moveTemple baseSeed rX rZ) rX rZ) 0x10000 0 0 ++
        [Event.flush] := by
    intro hex
    have ht := hfst.mpr hex
    unfold searchOffset
    dsimp only
    rw [if_neg (by rw [ht]; simp)]
  have hno : (¬ ∃ j ∈ probeSalts,
        e.mcNextInt (saltedSeed (e.moveTemple baseSeed rX rZ) j)
          (2 * rX + 1 + 1) (2 * rZ + 1 + 1) 6 = 5) →
      searchOffset e opts monuments baseSeed rX rZ =
        Event.moveTemple baseSeed rX rZ ::
          probeSalts.flatMap (fun j =>
            [Event.setWorldSeed (saltedSeed (e.moveTemple baseSeed rX rZ) j),
             Event.mcNextInt (saltedSeed (e.moveTemple baseSeed rX rZ) j)
               (2 * rX + 1 + 1) (2 * rZ + 1 + 1)]) := by
    intro hnex
    have hf : (probeLoop e (e.moveTemple baseSeed rX rZ) (2 * rX + 1 + 1) (2 * rZ + 1 + 1)
        probeSalts).1 = false := by
      cases hb : (probeLoop e (e.moveTemple baseSeed rX rZ) (2 * rX + 1 + 1) (2 * rZ + 1 + 1)
        probeSalts).1 with
      | false => rfl
      | true => exact absurd (hfst.mp hb) hnex
    unfold searchOffset
    dsimp only
    rw [if_pos hf, probeLoop_snd_of_no_match e _ _ _ probeSalts
      (fun j hj h5 => hnex ⟨j, hj, h5⟩)]
  refine ⟨hfst, rfl, hyes, fun hnex => ⟨hno hnex, fun s hs => ?_⟩, ⟨fun hfl => ?_, fun hex => ?_⟩⟩
  · rw [hno hnex] at hs
    simp [probeSalts] at hs
  · by_contra hnex
    rw [hno hnex] at hfl
    simp [probeSalts] at hfl
  · rw [hyes hex]
    simp

/-- Witness for C12: no draw of the sample library is 5, so the offset (-1, -1) of base
seed 0 consists of the translation and the ten probe calls. -/
theorem precheck_gates_sweep_witness :
    searchOffset sampleEngine smallOptions ⟨0, []⟩ 0 (-1) (-1) =
      Event.moveTemple 0 (-1) (-1) ::
        probeSalts.flatMap (fun j =>
          [Event.setWorldSeed (saltedSeed (sampleEngine.moveTemple 0 (-1) (-1)) j),
           Event.mcNextInt (saltedSeed (sampleEngine.moveTemple 0 (-1) (-1)) j)
             (2 * (-1) + 1 + 1) (2 * (-1) + 1 + 1)]) ∧
    ∀ s, Event.print s ∉ searchOffset sampleEngine smallOptions ⟨0, []⟩ 0 (-1) (-1) :=
  (precheck_gates_sweep sampleEngine smallOptions ⟨0, []⟩ 0 (-1) (-1)).2.2.2.1 (by decide)

/-! ## Bounds of the start index scan -/

theorem startIndexReads_of_all_lt (qhcount : Nat) (startSeed : Int) :
    ∀ (rest : List Int) (i : Nat), i + rest.length = qhcount →
      (∀ v ∈ rest, v < startSeed) →
      startIndexReads qhcount startSeed rest i = (List.range' i (rest.length + 1)) ∧
      startIndexScan qhcount startSeed rest i = none := by
  intro rest
  induction rest with
  | nil => intro i _ _; simp [startIndexReads, startIndexScan]
  | cons v rest ih =>
    intro i hlen hall
    have hv : v < startSeed := hall v (List.mem_cons_self _ _)
    have hi : i < qhcount := by simp at hlen; omega
    obtain ⟨h1, h2⟩ := ih (i + 1) (by simp at hlen; omega)
      (fun w hw => hall w (List.mem_cons_of_mem _ hw))
    constructor
    · simp only [startIndexReads, hv, hi, and_self, if_true, h1, List.length_cons,
        List.range'_succ]
    · simp only [startIndexScan, hv, hi, and_self, if_true, h2]

theorem findStartIndexReads_past_end (qhcandidates : List Int) (startSeed : Int)
    (hall : ∀ v ∈ qhcandidates, v < startSeed) :
    qhcandidates.length ∈ findStartIndexReads qhcandidates startSeed ∧
    findStartIndex qhcandidates startSeed = none := by
  obtain ⟨h1, h2⟩ := startIndexReads_of_all_lt qhcandidates.length startSeed qhcandidates 0
    (by omega) hall
  refine ⟨?_, h2⟩
  unfold findStartIndexReads
  rw [h1, List.mem_range']
  exact ⟨qhcandidates.length, by omega, by omega⟩

/-- C13, the failing inputs: with the single candidate 100 below `startSeed = 500` the
scan reads the array at indices 0 and 1, and with an empty list at index 0; in both the
last read is at index `qhcount`, past the end of the array. -/
theorem startIndexScan_reads_index_qhcount :
    findStartIndexReads [100] 500 = [0, 1] ∧ ([100] : List Int).length = 1 ∧
    findStartIndex [100] 500 = none ∧
    findStartIndexReads [] 500 = [0] ∧ ([] : List Int).length = 0 ∧
    findStartIndex [] 500 = none := by
  decide


/-! ## The floating point tail of hasSpawnBiome -/

theorem zpow_toNat_sub (a m : Int) (h : m ≤ a) :
    ((2 : Rat) ^ (a - m).toNat) * (2 : Rat) ^ m = (2 : Rat) ^ a := by
  have h2 : (2 : Rat) ≠ 0 := by norm_num
  rw [← zpow_natCast, ← zpow_add₀ h2]
  congr 1
  omega

theorem Dyadic.toRat_eq_scaled (x : Dyadic) (m : Int) (h : m ≤ x.exp) :
    x.toRat = ((x.mant * 2 ^ (x.exp - m).toNat : Nat) : Rat) * (2 : Rat) ^ m := by
  unfold Dyadic.toRat
  push_cast
  rw [mul_assoc, zpow_toNat_sub x.exp m h]

theorem Dyadic.blt_iff (x y : Dyadic) : x.blt y = true ↔ x.toRat < y.toRat := by
  have hpos : (0 : Rat) < (2 : Rat) ^ (min x.exp y.exp) := zpow_pos (by norm_num) _
  rw [Dyadic.toRat_eq_scaled x (min x.exp y.exp) (min_le_left _ _),
    Dyadic.toRat_eq_scaled y (min x.exp y.exp) (min_le_right _ _),
    mul_lt_mul_right hpos, Nat.cast_lt]
  simp [Dyadic.blt]

theorem log2Floor_spec : ∀ (fuel n : Nat), 1 ≤ n → n ≤ fuel →
    2 ^ log2Floor fuel n ≤ n ∧ n < 2 ^ (log2Floor fuel n + 1) := by
  intro fuel
  induction fuel with
  | zero => intro n h1 h2; omega
  | succ fuel ih =>
    intro n h1 h2
    unfold log2Floor
    by_cases hn : n < 2
    · rw [if_pos hn]
      simp
      omega
    · rw [if_neg hn]
      obtain ⟨h3, h4⟩ := ih (n / 2) (by omega) (by omega)
      rw [pow_succ] at h4
      rw [pow_succ, pow_succ, pow_succ]
      constructor <;> omega

theorem scaleRatio_spec (a b : Nat) (e : Int) (hb : 0 < b) :
    0 < (scaleRatio a b e).2 ∧
    ((scaleRatio a b e).1 : Rat) / ((scaleRatio a b e).2 : Rat) =
      ((a : Rat) / (b : Rat)) / (2 : Rat) ^ e := by
  have h2 : (2 : Rat) ≠ 0 := by norm_num
  have hbq : (b : Rat) ≠ 0 := by exact_mod_cast hb.ne'
  unfold scaleRatio
  by_cases he : 0 ≤ e
  · rw [if_pos he]
    refine ⟨Nat.mul_pos hb (pow_pos (by norm_num) _), ?_⟩
    have : ((2 : Rat) ^ e.toNat) = (2 : Rat) ^ e := by
      rw [← zpow_natCast]; congr 1; omega
    simp only
    push_cast
    rw [this, div_div]
  · rw [if_neg he]
    refine ⟨hb, ?_⟩
    have : ((2 : Rat) ^ (-e).toNat) = ((2 : Rat) ^ e)⁻¹ := by
      rw [← zpow_natCast, ← zpow_neg]; congr 1; omega
    simp only
    push_cast
    rw [this, div_div, div_eq_mul_inv, div_eq_mul_inv, mul_inv]
    ring

theorem roundRatio_spec (p a b : Nat) (hp : 1 ≤ p) (ha : 0 < a) (hb : 0 < b) :
    2 ^ (p - 1) ≤ (roundRatio p a b).mant ∧ (roundRatio p a b).mant ≤ 2 ^ p ∧
    |(roundRatio p a b).toRat - (a : Rat) / (b : Rat)| ≤ (2 : Rat) ^ (roundRatio p a b).exp / 2 ∧
    (|(roundRatio p a b).toRat - (a : Rat) / (b : Rat)| = (2 : Rat) ^ (roundRatio p a b).exp / 2 →
      (roundRatio p a b).mant % 2 = 0) := by
  have h2 : (2 : Rat) ≠ 0 := by norm_num
  have haq : (0 : Rat) < (a : Rat) := by exact_mod_cast ha
  have hbq : (0 : Rat) < (b : Rat) := by exact_mod_cast hb
  obtain ⟨hla1, hla2⟩ := log2Floor_spec a a ha (le_refl _)
  obtain ⟨hlb1, hlb2⟩ := log2Floor_spec b b hb (le_refl _)
  -- the exponent of the leading bit
  set k0 : Int := (log2Floor a a : Int) - (log2Floor b b : Int) with hk0
  set k : Int := if (scaleRatio a b k0).2 ≤ (scaleRatio a b k0).1 then k0 else k0 - 1 with hk
  have hq_lo : (2 : Rat) ^ (k0 - 1) < (a : Rat) / (b : Rat) := by
    rw [lt_div_iff₀ hbq]
    have h1 : ((2 : Rat) ^ (log2Floor a a)) ≤ (a : Rat) := by exact_mod_cast hla1
    have h3 : (b : Rat) < (2 : Rat) ^ (log2Floor b b + 1) := by exact_mod_cast hlb2
    have e1 : (2 : Rat) ^ (k0 - 1) * (2 : Rat) ^ (log2Floor b b + 1) = (2 : Rat) ^ (log2Floor a a) := by
      rw [← zpow_natCast, ← zpow_natCast, ← zpow_add₀ h2]
      congr 1
      push_cast
      omega
    calc (2 : Rat) ^ (k0 - 1) * (b : Rat)
        < (2 : Rat) ^ (k0 - 1) * (2 : Rat) ^ (log2Floor b b + 1) :=
          mul_lt_mul_of_pos_left h3 (zpow_pos (by norm_num) _)
      _ = (2 : Rat) ^ (log2Floor a a) := e1
      _ ≤ (a : Rat) := h1
  have hq_hi : (a : Rat) / (b : Rat) < (2 : Rat) ^ (k0 + 1) := by
    rw [div_lt_iff₀ hbq]
    have h1 : (a : Rat) < (2 : Rat) ^ (log2Floor a a + 1) := by exact_mod_cast hla2
    have h3 : ((2 : Rat) ^ (log2Floor b b)) ≤ (b : Rat) := by exact_mod_cast hlb1
    have e1 : (2 : Rat) ^ (k0 + 1) * (2 : Rat) ^ (log2Floor b b) = (2 : Rat) ^ (log2Floor a a + 1) := by
      rw [← zpow_natCast, ← zpow_natCast, ← zpow_add₀ h2]
      congr 1
      push_cast
      omega
    calc (a : Rat) < (2 : Rat) ^ (log2Floor a a + 1) := h1
      _ = (2 : Rat) ^ (k0 + 1) * (2 : Rat) ^ (log2Floor b b) := e1.symm
      _ ≤ (2 : Rat) ^ (k0 + 1) * (b : Rat) :=
          mul_le_mul_of_nonneg_left h3 (le_of_lt (zpow_pos (by norm_num) _))
  have hk_spec : (2 : Rat) ^ k ≤ (a : Rat) / (b : Rat) ∧ (a : Rat) / (b : Rat) < (2 : Rat) ^ (k + 1) := by
    obtain ⟨hs0, hs1⟩ := scaleRatio_spec a b k0 hb
    have hs0q : (0 : Rat) < ((scaleRatio a b k0).2 : Rat) := by exact_mod_cast hs0
    have hpow : (0 : Rat) < (2 : Rat) ^ k0 := zpow_pos (by norm_num) _
    by_cases hc : (scaleRatio a b k0).2 ≤ (scaleRatio a b k0).1
    · have hkk : k = k0 := by rw [hk, if_pos hc]
      rw [hkk]
      refine ⟨?_, hq_hi⟩
      have : (1 : Rat) ≤ ((scaleRatio a b k0).1 : Rat) / ((scaleRatio a b k0).2 : Rat) := by
        rw [le_div_iff₀ hs0q, one_mul]
        exact_mod_cast hc
      rw [hs1, le_div_iff₀ hpow, one_mul] at this
      exact this
    · have hkk : k = k0 - 1 := by rw [hk, if_neg hc]
      rw [hkk]
      refine ⟨le_of_lt hq_lo, ?_⟩
      have : ((scaleRatio a b k0).1 : Rat) / ((scaleRatio a b k0).2 : Rat) < 1 := by
        rw [div_lt_iff₀ hs0q, one_mul]
        exact_mod_cast (not_le.mp hc)
      rw [hs1, div_lt_iff₀ hpow, one_mul] at this
      have e1 : k0 - 1 + 1 = k0 := by omega
      rw [e1]
      exact this
  -- the significand
  set e : Int := k - ((p : Int) - 1) with he
  obtain ⟨hs0, hs1⟩ := scaleRatio_spec a b e hb
  set N := (scaleRatio a b e).1 with hN
  set D := (scaleRatio a b e).2 with hD
  have hDq : (0 : Rat) < (D : Rat) := by exact_mod_cast hs0
  have hpe : (0 : Rat) < (2 : Rat) ^ e := zpow_pos (by norm_num) _
  have hx_lo : ((2 ^ (p - 1) : Nat) : Rat) ≤ (N : Rat) / (D : Rat) := by
    rw [hs1, le_div_iff₀ hpe]
    have e1 : ((2 ^ (p - 1) : Nat) : Rat) * (2 : Rat) ^ e = (2 : Rat) ^ k := by
      push_cast
      rw [← zpow_natCast, ← zpow_add₀ h2]
      congr 1
      have : ((p - 1 : Nat) : Int) = (p : Int) - 1 := by omega
      rw [this, he]
      ring
    rw [e1]
    exact hk_spec.1
  have hx_hi : (N : Rat) / (D : Rat) < ((2 ^ p : Nat) : Rat) := by
    rw [hs1, div_lt_iff₀ hpe]
    have e1 : ((2 ^ p : Nat) : Rat) * (2 : Rat) ^ e = (2 : Rat) ^ (k + 1) := by
      push_cast
      rw [← zpow_natCast, ← zpow_add₀ h2]
      congr 1
      rw [he]
      ring
    rw [e1]
    exact hk_spec.2
  have hN_lo : 2 ^ (p - 1) * D ≤ N := by
    rw [le_div_iff₀ hDq] at hx_lo
    exact_mod_cast hx_lo
  have hN_hi : N < 2 ^ p * D := by
    rw [div_lt_iff₀ hDq] at hx_hi
    exact_mod_cast hx_hi
  have hdm := Nat.div_add_mod N D
  have hmod := Nat.mod_lt N hs0
  set n := N / D with hn
  set r := N % D with hr
  have hn_lo : 2 ^ (p - 1) ≤ n := by
    by_contra hcon
    have h1 : n + 1 ≤ 2 ^ (p - 1) := by omega
    have h2' : (n + 1) * D ≤ 2 ^ (p - 1) * D := Nat.mul_le_mul_right D h1
    have h3 : D * n + D = (n + 1) * D := by ring
    omega
  have hn_hi : n < 2 ^ p := by
    by_contra hcon
    have h1 : 2 ^ p ≤ n := by omega
    have h2' : 2 ^ p * D ≤ n * D := Nat.mul_le_mul_right D h1
    have h3 : D * n = n * D := by ring
    omega
  have hxq : (N : Rat) / (D : Rat) = (n : Rat) + (r : Rat) / (D : Rat) := by
    rw [eq_comm, ← hdm]
    push_cast
    field_simp
    ring
  have hval : ∀ m : Nat, (Dyadic.mk m e).toRat - (a : Rat) / (b : Rat) =
      ((m : Rat) - (n : Rat) - (r : Rat) / (D : Rat)) * (2 : Rat) ^ e := by
    intro m
    have : (a : Rat) / (b : Rat) = ((n : Rat) + (r : Rat) / (D : Rat)) * (2 : Rat) ^ e := by
      rw [← hxq, hs1]
      field_simp
      ring
    rw [this]
    simp only [Dyadic.toRat]
    ring
  have hres : roundRatio p a b =
      ⟨if 2 * r < D then n else if D < 2 * r then n + 1 else if n % 2 = 0 then n else n + 1, e⟩ := by
    unfold roundRatio
    rw [if_neg (by omega)]
  have habs : ∀ t : Rat, |t * (2 : Rat) ^ e| = |t| * (2 : Rat) ^ e := by
    intro t
    rw [abs_mul, abs_of_pos hpe]
  have hrD : (0 : Rat) ≤ (r : Rat) / (D : Rat) := div_nonneg (Nat.cast_nonneg _) (le_of_lt hDq)
  rw [hres]
  by_cases c1 : 2 * r < D
  · simp only [if_pos c1]
    have hlt : (r : Rat) / (D : Rat) < 1 / 2 := by
      rw [div_lt_div_iff₀ hDq (by norm_num)]
      have : ((2 * r : Nat) : Rat) < (D : Rat) := by exact_mod_cast c1
      push_cast at this
      linarith
    have habs1 : |((n : Rat) - (n : Rat) - (r : Rat) / (D : Rat))| < 1 / 2 := by
      rw [abs_lt]; constructor <;> linarith
    refine ⟨hn_lo, le_of_lt hn_hi, ?_, ?_⟩
    · rw [hval, habs]
      have := mul_le_mul_of_nonneg_right (le_of_lt habs1) (le_of_lt hpe)
      linarith
    · intro heq
      rw [hval, habs] at heq
      have := mul_lt_mul_of_pos_right habs1 hpe
      linarith
  · simp only [if_neg c1]
    by_cases c2 : D < 2 * r
    · simp only [if_pos c2]
      have hgt : 1 / 2 < (r : Rat) / (D : Rat) := by
        rw [div_lt_div_iff₀ (by norm_num) hDq]
        have : ((D : Nat) : Rat) < ((2 * r : Nat) : Rat) := by exact_mod_cast c2
        push_cast at this
        linarith
      have hlt1 : (r : Rat) / (D : Rat) < 1 := by
        rw [div_lt_one hDq]
        exact_mod_cast hmod
      have habs1 : |(((n + 1 : Nat) : Rat) - (n : Rat) - (r : Rat) / (D : Rat))| < 1 / 2 := by
        push_cast
        rw [abs_lt]; constructor <;> linarith
      refine ⟨by omega, by omega, ?_, ?_⟩
      · rw [hval, habs]
        have := mul_le_mul_of_nonneg_right (le_of_lt habs1) (le_of_lt hpe)
        linarith
      · intro heq
        rw [hval, habs] at heq
        have := mul_lt_mul_of_pos_right habs1 hpe
        linarith
    · simp only [if_neg c2]
      have heqr : 2 * r = D := by omega
      have hhalf : (r : Rat) / (D : Rat) = 1 / 2 := by
        rw [div_eq_div_iff (ne_of_gt hDq) (by norm_num)]
        have : ((2 * r : Nat) : Rat) = (D : Rat) := by exact_mod_cast heqr
        push_cast at this
        linarith
      by_cases c3 : n % 2 = 0
      · simp only [if_pos c3]
        have habs1 : |((n : Rat) - (n : Rat) - (r : Rat) / (D : Rat))| = 1 / 2 := by
          rw [hhalf]; norm_num [abs_of_neg]
        refine ⟨hn_lo, le_of_lt hn_hi, ?_, fun _ => c3⟩
        rw [hval, habs, habs1]
        linarith
      · simp only [if_neg c3]
        have habs1 : |(((n + 1 : Nat) : Rat) - (n : Rat) - (r : Rat) / (D : Rat))| = 1 / 2 := by
          rw [hhalf]; push_cast; norm_num
        refine ⟨by omega, by omega, ?_, fun _ => by omega⟩
        rw [hval, habs, habs1]
        linarith

theorem oneMinus_spec (x : Dyadic) (hx : x.toRat ≤ 1) :
    0 < (oneMinus x).2 ∧
    ((oneMinus x).1 : Rat) / ((oneMinus x).2 : Rat) = 1 - x.toRat := by
  unfold oneMinus
  by_cases he : 0 ≤ x.exp
  · rw [if_pos he]
    have hpow : ((2 : Rat) ^ x.exp.toNat) = (2 : Rat) ^ x.exp := by
      rw [← zpow_natCast]; congr 1; omega
    have hle : x.mant * 2 ^ x.exp.toNat ≤ 1 := by
      have : ((x.mant * 2 ^ x.exp.toNat : Nat) : Rat) ≤ 1 := by
        push_cast
        rw [hpow]
        exact hx
      exact_mod_cast this
    refine ⟨by norm_num, ?_⟩
    simp only [Nat.cast_one, div_one]
    rw [Nat.cast_sub hle]
    push_cast
    rw [hpow, Dyadic.toRat]
  · rw [if_neg he]
    have hpos : (0 : Rat) < (2 : Rat) ^ x.exp := zpow_pos (by norm_num) _
    have hP : ((2 ^ (-x.exp).toNat : Nat) : Rat) = ((2 : Rat) ^ x.exp)⁻¹ := by
      push_cast
      rw [← zpow_natCast, ← zpow_neg]; congr 1; omega
    have hmle : (x.mant : Rat) ≤ ((2 : Rat) ^ x.exp)⁻¹ := by
      rw [← one_div, le_div_iff₀ hpos]
      exact hx
    have hle : x.mant ≤ 2 ^ (-x.exp).toNat := by
      rw [← hP] at hmle
      exact_mod_cast hmle
    refine ⟨pow_pos (by norm_num) _, ?_⟩
    simp only
    rw [Nat.cast_sub hle, hP, Dyadic.toRat]
    field_simp
    ring

theorem dyadicRatio_spec (x y : Dyadic) (hy : 0 < y.mant) :
    0 < (dyadicRatio x y).2 ∧
    ((dyadicRatio x y).1 : Rat) / ((dyadicRatio x y).2 : Rat) = x.toRat / y.toRat := by
  have hpos : (0 : Rat) < (2 : Rat) ^ (min x.exp y.exp) := zpow_pos (by norm_num) _
  refine ⟨Nat.mul_pos hy (pow_pos (by norm_num) _), ?_⟩
  rw [Dyadic.toRat_eq_scaled x (min x.exp y.exp) (min_le_left _ _),
    Dyadic.toRat_eq_scaled y (min x.exp y.exp) (min_le_right _ _)]
  unfold dyadicRatio
  simp only
  rw [mul_div_mul_right _ _ (ne_of_gt hpos)]

theorem count_map_eq_length_filter (f : Nat → Int) (v : Int) (l : List Nat) :
    (l.map f).count v = (l.filter (fun i => decide (f i = v))).length := by
  induction l with
  | nil => simp
  | cons a l ih =>
    by_cases h : f a = v
    · simp [List.count_cons, List.filter_cons, h, ih]
    · simp [List.count_cons, List.filter_cons, h, ih]

theorem hasSpawnBiome_eq (e : Engine) (g : LayerStack) (spawn : Pos)
    (config : BiomeSearchConfig) :
    hasSpawnBiome e g spawn config =
      if config.fraction ≤ (spawnQuotient
          ((List.range 324).filter (fun i => decide (config.lookup
            (e.genAreaShore g (spawn.x >>> 4 - 9) (spawn.z >>> 4 - 9) i) = 1))).length
          ((List.range 324).filter (fun i => decide (config.lookup
            (e.genAreaShore g (spawn.x >>> 4 - 9) (spawn.z >>> 4 - 9) i) = -1))).length).toRat
      then 1 else 0 := by
  unfold hasSpawnBiome spawnFractionAccepts
  simp only [count_map_eq_length_filter, decide_eq_true_eq]

set_option maxRecDepth 100000 in
theorem cap_threshold :
    ∀ exc, exc ≤ 324 →
      (float080.blt (roundRatio 24 exc (18 * 18)) = true ↔ 260 ≤ exc) := by
  decide

set_option maxRecDepth 100000 in
theorem denominator_values :
    ∀ exc, exc ≤ 324 →
      (spawnDenominator exc).blt ⟨3355443, -24⟩ = false ∧
      (260 ≤ exc → spawnDenominator exc = ⟨7205758974296064, -55⟩) ∧
      0 < (spawnDenominator exc).mant := by
  decide

theorem float080_value : float080 = ⟨13421773, -24⟩ := by decide

theorem toRat_cap : (Dyadic.mk 13421773 (-24)).toRat = 13421773 / 16777216 := by
  norm_num [Dyadic.toRat]

theorem toRat_capped_denominator :
    (Dyadic.mk 7205758974296064 (-55)).toRat = 3355443 / 16777216 := by
  norm_num [Dyadic.toRat]

theorem toRat_denominator_bound : (Dyadic.mk 3355443 (-24)).toRat = 3355443 / 16777216 := by
  norm_num [Dyadic.toRat]

theorem spawnIgnoreFraction_le_cap (exc : Nat) :
    (spawnIgnoreFraction exc).toRat ≤ float080.toRat := by
  unfold spawnIgnoreFraction
  dsimp only
  by_cases h : float080.blt (roundRatio 24 exc (18 * 18)) = true
  · rw [if_pos h]
  · rw [if_neg h]
    rw [Dyadic.blt_iff] at h
    exact not_lt.mp h

/-- C9 (spawn-fraction formula, as the code has it).  hasSpawnBiome accepts exactly when
`config.fraction ≤ Q`, where `inc` and `exc` are the numbers of cells of the 18x18 window
whose lookup value is `+1` and `-1` and `Q` is computed in floating point:
`inc/324` and `exc/324` rounded to float, the second replaced by the float `0.80f` when it
exceeds it, the difference `1 - ignoreFraction` and the quotient rounded to double.  Each
rounded value has a 24-bit (float) or 53-bit (double) significand and lies within half a
unit in the last place of the exact one.  The float `0.80f` is `13421773/16777216`, above `4/5`.  The cap changes
the denominator exactly when `exc ≥ 260`, that is when `exc/324 > 4/5`; the capped
denominator is `3355443/16777216`, which is below `1/5`, and no denominator is smaller. -/
theorem hasSpawnBiome_float_formula (e : Engine) (g : LayerStack) (spawn : Pos)
    (config : BiomeSearchConfig) :
    (hasSpawnBiome e g spawn config =
      if config.fraction ≤ (spawnQuotient
          ((List.range 324).filter (fun i => decide (config.lookup
            (e.genAreaShore g (spawn.x >>> 4 - 9) (spawn.z >>> 4 - 9) i) = 1))).length
          ((List.range 324).filter (fun i => decide (config.lookup
            (e.genAreaShore g (spawn.x >>> 4 - 9) (spawn.z >>> 4 - 9) i) = -1))).length).toRat
      then 1 else 0) ∧
    (∀ inc exc : Nat, 0 < inc → exc ≤ 324 →
      |(spawnIncludeFraction inc).toRat - (inc : Rat) / 324| ≤
          (2 : Rat) ^ (spawnIncludeFraction inc).exp / 2 ∧
        2 ^ 23 ≤ (spawnIncludeFraction inc).mant ∧ (spawnIncludeFraction inc).mant ≤ 2 ^ 24 ∧
      |(spawnQuotient inc exc).toRat -
          (spawnIncludeFraction inc).toRat / (spawnDenominator exc).toRat| ≤
          (2 : Rat) ^ (spawnQuotient inc exc).exp / 2 ∧
        2 ^ 52 ≤ (spawnQuotient inc exc).mant ∧ (spawnQuotient inc exc).mant ≤ 2 ^ 53) ∧
    (∀ exc : Nat, 0 < exc → exc ≤ 324 →
      |(roundRatio 24 exc (18 * 18)).toRat - (exc : Rat) / 324| ≤
          (2 : Rat) ^ (roundRatio 24 exc (18 * 18)).exp / 2 ∧
      (spawnIgnoreFraction exc).toRat =
          min (roundRatio 24 exc (18 * 18)).toRat float080.toRat ∧
      |(spawnDenominator exc).toRat - (1 - (spawnIgnoreFraction exc).toRat)| ≤
          (2 : Rat) ^ (spawnDenominator exc).exp / 2) ∧
    float080.toRat = 13421773 / 16777216 ∧ (4 / 5 : Rat) < float080.toRat ∧
    (∀ exc : Nat, exc ≤ 324 →
      (float080.toRat < (roundRatio 24 exc (18 * 18)).toRat ↔ 260 ≤ exc) ∧
      ((4 / 5 : Rat) < (exc : Rat) / 324 ↔ 260 ≤ exc) ∧
      (260 ≤ exc → (spawnDenominator exc).toRat = 3355443 / 16777216) ∧
      (3355443 / 16777216 : Rat) ≤ (spawnDenominator exc).toRat) ∧
    (3355443 / 16777216 : Rat) < 1 / 5 := by
  have hcapval : float080.toRat = 13421773 / 16777216 := by
    rw [float080_value, toRat_cap]
  refine ⟨hasSpawnBiome_eq e g spawn config, ?_, ?_, hcapval, ?_, ?_, by norm_num⟩
  · intro inc exc hinc hexc
    have h1 := roundRatio_spec 24 inc (18 * 18) (by norm_num) hinc (by norm_num)
    have hden := (denominator_values exc hexc).2.2
    have hmant : 0 < (spawnIncludeFraction inc).mant :=
      lt_of_lt_of_le (by norm_num) h1.1
    obtain ⟨hq0, hq1⟩ := dyadicRatio_spec (spawnIncludeFraction inc) (spawnDenominator exc) hden
    have hnum : 0 < (dyadicRatio (spawnIncludeFraction inc) (spawnDenominator exc)).1 :=
      Nat.mul_pos hmant (pow_pos (by norm_num) _)
    have h2 := roundRatio_spec 53
      (dyadicRatio (spawnIncludeFraction inc) (spawnDenominator exc)).1
      (dyadicRatio (spawnIncludeFraction inc) (spawnDenominator exc)).2 (by norm_num) hnum hq0
    rw [hq1] at h2
    refine ⟨?_, h1.1, h1.2.1, h2.2.2.1, h2.1, h2.2.1⟩
    have := h1.2.2.1
    norm_num at this
    exact this
  · intro exc hexc0 hexc
    have h1 := roundRatio_spec 24 exc (18 * 18) (by norm_num) hexc0 (by norm_num)
    have hle1 : (spawnIgnoreFraction exc).toRat ≤ 1 := by
      have := spawnIgnoreFraction_le_cap exc
      rw [hcapval] at this
      linarith
    obtain ⟨ho0, ho1⟩ := oneMinus_spec (spawnIgnoreFraction exc) hle1
    have hnum : 0 < (oneMinus (spawnIgnoreFraction exc)).1 := by
      have hpos : (0 : Rat) < ((oneMinus (spawnIgnoreFraction exc)).1 : Rat) /
          ((oneMinus (spawnIgnoreFraction exc)).2 : Rat) := by
        rw [ho1]
        have := spawnIgnoreFraction_le_cap exc
        rw [hcapval] at this
        linarith
      by_contra hcon
      have hz : (oneMinus (spawnIgnoreFraction exc)).1 = 0 := by omega
      rw [hz] at hpos
      simp at hpos
    have h2 := roundRatio_spec 53 (oneMinus (spawnIgnoreFraction exc)).1
      (oneMinus (spawnIgnoreFraction exc)).2 (by norm_num) hnum ho0
    rw [ho1] at h2
    refine ⟨?_, ?_, h2.2.2.1⟩
    · have := h1.2.2.1
      norm_num at this
      exact this
    · unfold spawnIgnoreFraction
      dsimp only
      by_cases h : float080.blt (roundRatio 24 exc (18 * 18)) = true
      · rw [if_pos h]
        rw [Dyadic.blt_iff] at h
        rw [min_eq_right (le_of_lt h)]
      · rw [if_neg h]
        rw [Dyadic.blt_iff] at h
        rw [min_eq_left (not_lt.mp h)]
  · rw [hcapval]; norm_num
  · intro exc hexc
    obtain ⟨hd1, hd2, -⟩ := denominator_values exc hexc
    refine ⟨?_, ?_, ?_, ?_⟩
    · rw [← Dyadic.blt_iff]
      exact cap_threshold exc hexc
    · rw [lt_div_iff₀ (by norm_num)]
      constructor
      · intro h
        have h' : ((4 * 324 : Nat) : Rat) < ((5 * exc : Nat) : Rat) := by
          push_cast; linarith
        have := Nat.cast_lt.mp h'
        omega
      · intro h
        have h' : ((4 * 324 : Nat) : Rat) < ((5 * exc : Nat) : Rat) := by
          apply Nat.cast_lt.mpr; omega
        push_cast at h'
        linarith
    · intro h
      rw [hd2 h, toRat_capped_denominator]
    · have h : ¬ (spawnDenominator exc).blt ⟨3355443, -24⟩ = true := by
        rw [hd1]; simp
      rw [Dyadic.blt_iff, toRat_denominator_bound] at h
      exact not_lt.mp h

/-- Witness for C9: the sample window has `inc = 41` and `exc = 242`. -/
theorem hasSpawnBiome_float_formula_witness :
    hasSpawnBiome spawnSampleEngine 0 ⟨0, 0⟩ spawnSampleConfig =
      if spawnSampleConfig.fraction ≤ (spawnQuotient
          ((List.range 324).filter (fun i => decide (spawnSampleConfig.lookup
            (spawnSampleEngine.genAreaShore 0 ((0 : Int) >>> 4 - 9) ((0 : Int) >>> 4 - 9) i)
              = 1))).length
          ((List.range 324).filter (fun i => decide (spawnSampleConfig.lookup
            (spawnSampleEngine.genAreaShore 0 ((0 : Int) >>> 4 - 9) ((0 : Int) >>> 4 - 9) i)
              = -1))).length).toRat
      then 1 else 0 :=
  (hasSpawnBiome_float_formula spawnSampleEngine 0 ⟨0, 0⟩ spawnSampleConfig).1

set_option maxRecDepth 100000 in
/-- C9 as stated fails.  In the sample window 41 cells are included and 242 ignored and
the fraction is `0.50f`: the exact formula gives `(41/324) / (1 - 242/324) = 1/2`, which
accepts, while the code computes a quotient just below `1/2` and rejects.  With the cap
in force (`exc = 260`) the denominator is below `1/5`. -/
theorem spawn_fraction_not_exact :
    ((List.range 324).filter (fun i => decide (spawnSampleConfig.lookup
      (spawnSampleEngine.genAreaShore 0 ((0 : Int) >>> 4 - 9) ((0 : Int) >>> 4 - 9) i)
        = 1))).length = 41 ∧
    ((List.range 324).filter (fun i => decide (spawnSampleConfig.lookup
      (spawnSampleEngine.genAreaShore 0 ((0 : Int) >>> 4 - 9) ((0 : Int) >>> 4 - 9) i)
        = -1))).length = 242 ∧
    spawnSampleConfig.fraction = 1 / 2 ∧
    spawnSampleConfig.fraction ≤
      ((41 : Rat) / 324) / (1 - min ((242 : Rat) / 324) (4 / 5)) ∧
    hasSpawnBiome spawnSampleEngine 0 ⟨0, 0⟩ spawnSampleConfig = 0 ∧
    (spawnQuotient 41 242).toRat = 4503599097046849 / 9007199254740992 ∧
    (spawnDenominator 260).toRat < 1 / 5 := by
  have hinc : ((List.range 324).filter (fun i => decide (spawnSampleConfig.lookup
      (spawnSampleEngine.genAreaShore 0 ((0 : Int) >>> 4 - 9) ((0 : Int) >>> 4 - 9) i)
        = 1))).length = 41 := by decide
  have hexc : ((List.range 324).filter (fun i => decide (spawnSampleConfig.lookup
      (spawnSampleEngine.genAreaShore 0 ((0 : Int) >>> 4 - 9) ((0 : Int) >>> 4 - 9) i)
        = -1))).length = 242 := by decide
  have hq : spawnQuotient 41 242 = ⟨9007198194093698, -54⟩ := by decide
  have hqv : (spawnQuotient 41 242).toRat = 4503599097046849 / 9007199254740992 := by
    rw [hq]; norm_num [Dyadic.toRat]
  have hd : spawnDenominator 260 = ⟨7205758974296064, -55⟩ := by decide
  have hfr : spawnSampleConfig.fraction = 1 / 2 := rfl
  refine ⟨hinc, hexc, hfr, ?_, ?_, hqv, ?_⟩
  · rw [hfr]; norm_num
  · rw [hasSpawnBiome_eq, hinc, hexc, hqv, hfr]
    norm_num
  · rw [hd, toRat_capped_denominator]; norm_num

end Multifinder
